import Mathlib

/-!
Verification of the message correlation engine, content block mapper and
streaming event translator of the claude-code to Bedrock proxy.

The definitions below are a shallow embedding of `src/mapping.py` and the
streaming generator of `src/server.py`.  Dynamically-typed dictionary fields
are embedded as `Option`-valued record fields (a `none` field is an absent or
`null` key); Python truthiness on strings and options is made explicit through
the `pyOr*` helpers.  External library primitives that the repository calls
(base64 decoding, the network) are not repository code: base64 decoding is
represented by the code-point sequence of the encoded text (an injection on
the values it receives, and no verified property inspects decoded bytes) and
the network is a parameter mapping a URL to an abstract HTTP outcome.
-/

namespace Proxy

/-- Python `a or b` for a possibly-absent string field: an absent key, a `null`
value and the empty string are all falsy. -/
def pyOr (v : Option String) (d : String) : String :=
  match v with
  | some s => if s = "" then d else s
  | none => d

/-- Python `a or b` keeping the option: the first truthy operand wins. -/
def pyOrOpt (v w : Option String) : Option String :=
  match v with
  | some s => if s = "" then w else some s
  | none => w

/-- Truthiness of a possibly-absent string field. -/
def truthyStr (v : Option String) : Bool :=
  match v with
  | some s => s ≠ ""
  | none => false

/-- Is `pre` a prefix of `cs`? -/
def isPrefixChars : List Char → List Char → Bool
  | [], _ => true
  | _ :: _, [] => false
  | p :: ps, c :: cs => p = c ∧ isPrefixChars ps cs

/-- Splitting worker: scan for the (non-empty) separator, with the remaining
character count as fuel (each step consumes at least one character). -/
def splitCharsFuel (sep : List Char) : Nat → List Char → List Char → List (List Char)
  | 0, _, cur => [cur.reverse]
  | fuel + 1, cs, cur =>
    match cs with
    | [] => [cur.reverse]
    | c :: rest =>
      if isPrefixChars sep cs then
        cur.reverse :: splitCharsFuel sep fuel (cs.drop sep.length) []
      else
        splitCharsFuel sep fuel rest (c :: cur)

/-- Python `s.split(sep)` for a non-empty separator. -/
def pySplit (s sep : String) : List String :=
  (splitCharsFuel sep.toList (s.toList.length + 1) s.toList []).map String.mk

/-- Python `s.strip()`. -/
def pyStrip (s : String) : String :=
  String.mk (((s.toList.dropWhile Char.isWhitespace).reverse.dropWhile Char.isWhitespace).reverse)

/-- Python `s.lower()` (ASCII, the range these strings use). -/
def lowerStr (s : String) : String :=
  String.mk (s.toList.map Char.toLower)

/-- Python `s.upper()` (ASCII, the range these strings use). -/
def upperStr (s : String) : String :=
  String.mk (s.toList.map Char.toUpper)

/-- Python `s.startswith(pre)`. -/
def strStartsWith (s pre : String) : Bool :=
  isPrefixChars pre.toList s.toList

/-- Python `int(s)` on the strings it accepts: optional surrounding
whitespace, an optional sign, then decimal digits; `none` where `int(...)`
raises `ValueError`. -/
def pyParseInt (s : String) : Option Int :=
  let cs := (pyStrip s).toList
  let (negSign, digits) :=
    match cs with
    | '-' :: rest => (true, rest)
    | '+' :: rest => (false, rest)
    | _ => (false, cs)
  if digits = [] ∨ ¬digits.all Char.isDigit then none
  else
    let n := digits.foldl (fun (acc : Nat) c => acc * 10 + (c.toNat - 48)) 0
    some (if negSign then -(n : Int) else (n : Int))

/-- Python's string order: lexicographic by code point. -/
def charListLt : List Char → List Char → Bool
  | [], [] => false
  | [], _ :: _ => true
  | _ :: _, [] => false
  | a :: as, b :: bs => a.toNat < b.toNat ∨ (a.toNat = b.toNat ∧ charListLt as bs)

/-- Python `a < b` on strings. -/
def strLtB (a b : String) : Bool :=
  charListLt a.toList b.toList

/-- Embedded Python/JSON values, as found in `input` payloads, structured
tool-result entries and media payloads (`bytes` carries raw byte strings). -/
inductive JVal where
  | null
  | bool (b : Bool)
  | num (n : Int)
  | str (s : String)
  | arr (items : List JVal)
  | obj (fields : List (String × JVal))
  | bytes (bs : List Nat)

/-- One entry of a Bedrock `toolResult.content` list: a `{"text": ...}` or a
`{"json": ...}` dict. -/
inductive TROut where
  | text (s : String)
  | json (j : JVal)

/-- One element of an Anthropic `tool_result.content` array.  A list element
that is not a dict is skipped by the encoder (`nonDict`); a dict element is
described by its `type`, `text` and `json` keys (`none` = key absent). -/
inductive TRInItem where
  | item (ty : Option String) (text : Option String) (json : Option JVal)
  | nonDict

/-- The value of an Anthropic `tool_result.content` field, which may be
absent, a bare string, a mapping, an array of blocks, or any other value
(which `to_bedrock_tool_result_content` serializes to text; the serialized
form is carried abstractly as `other`). -/
inductive TRIn where
  | none
  | str (s : String)
  | dict (j : JVal)
  | list (items : List TRInItem)
  | other (serialized : String)

/-- `to_bedrock_tool_result_content` from `src/mapping.py`. -/
def to_bedrock_tool_result_content : TRIn → List TROut
  | .none => []
  | .str s => [.text s]
  | .dict j => [.json j]
  | .list items => items.foldr
      (fun it acc =>
        match it with
        | .nonDict => acc
        | .item ty tx js =>
          if ty = some "text" then .text (tx.getD "") :: acc
          else if ty = some "json" then .json (js.getD (JVal.obj [])) :: acc
          else match js with
            | some j => .json j :: acc
            | none =>
              match tx with
              | some t => .text t :: acc
              | none => acc)
      []
  | .other serialized => [.text serialized]

/-- An Anthropic-side decoded tool-result block (a `{"type": "text"|"json"}`
dict). -/
inductive ABlockOut where
  | text (s : String)
  | json (j : JVal)

/-- Result of `from_bedrock_tool_result_content`: a bare string or a list of
typed blocks. -/
inductive TRDecoded where
  | str (s : String)
  | blocks (bs : List ABlockOut)

/-- `from_bedrock_tool_result_content` from `src/mapping.py`. -/
def from_bedrock_tool_result_content (content : List TROut) : TRDecoded :=
  match content with
  | [] => .str ""
  | [.text s] => .str s
  | _ => .blocks (content.map (fun it =>
      match it with
      | .text s => ABlockOut.text s
      | .json j => ABlockOut.json j))

/-! ### Remote media fetching (`_fetch_remote_media`) -/

/-- Errors raised by the mapper.  `UnsupportedContentError` is the subclass
raised for an unknown content block type; every other failure is a plain
`MappingError` carrying its message. -/
inductive MappingErr where
  | mappingError (msg : String)
  | unsupportedContent (msg : String)
deriving DecidableEq

/-- The body and headers of one HTTP response, as observed through
`urlopen`: the `Content-Type` and `Content-Length` headers (absent = `none`)
and the successive non-empty chunks returned by `resp.read(8192)` (reading
stops at the first empty chunk). -/
structure HttpResponse where
  contentType : Option String
  contentLength : Option String
  chunks : List (List Nat)

/-- Outcome of opening a URL: a response, or a network failure
(`HTTPError`/`URLError`/timeout) carrying its message. -/
inductive FetchOutcome where
  | success (resp : HttpResponse)
  | failure (msg : String)

/-- The network, abstracted: what `urlopen` yields for each URL. -/
def FetchWorld := String → FetchOutcome

/-- The scheme of a URL as `urlparse` reports it: the lower-cased text before
the first `:`, when it is a well-formed scheme (a letter followed by
letters, digits, `+`, `-` or `.`); otherwise the empty string. -/
def urlScheme (url : String) : String :=
  match pySplit url ":" with
  | [] => ""
  | [_] => ""
  | head :: _ :: _ =>
    let chars := head.toList
    match chars with
    | [] => ""
    | c :: rest =>
      if c.isAlpha ∧ rest.all (fun ch => ch.isAlphanum ∨ ch = '+' ∨ ch = '-' ∨ ch = '.') then
        lowerStr head
      else ""

/-- 10 MiB, the remote media size cap (`_MAX_REMOTE_MEDIA_BYTES`). -/
def MAX_REMOTE_MEDIA_BYTES : Nat := 10 * 1024 * 1024

/-- The read loop of `_fetch_remote_media`: accumulate chunks, stopping at the
first empty read, and fail as soon as the buffer exceeds the cap. -/
def readCapped (buf : List Nat) : List (List Nat) → Except MappingErr (List Nat)
  | [] => .ok buf
  | c :: rest =>
    if c = [] then .ok buf
    else
      let buf' := buf ++ c
      if buf'.length > MAX_REMOTE_MEDIA_BYTES then
        .error (.mappingError "remote media exceeds 10MB limit")
      else readCapped buf' rest

/-- `_fetch_remote_media` from `src/mapping.py` (the default path, with the
injectable `_REMOTE_FETCHER` test seam unset): validate the scheme, open the
URL, reject a declared `Content-Length` above the cap, then read chunkwise
under the cap.  Network failures become `MappingError`s. -/
def fetch_remote_media (world : FetchWorld) (url : String) :
    Except MappingErr (List Nat × Option String) :=
  if urlScheme url ≠ "http" ∧ urlScheme url ≠ "https" then
    .error (.mappingError "remote media URLs must use http or https")
  else
    match world url with
    | .failure msg => .error (.mappingError ("failed to fetch remote media: " ++ msg))
    | .success resp =>
      let lengthCheck : Except MappingErr Unit :=
        match resp.contentLength with
        | none => .ok ()
        | some cl =>
          if cl = "" then .ok ()
          else
            match pyParseInt cl with
            | none => .ok ()
            | some n =>
              if n > (MAX_REMOTE_MEDIA_BYTES : Int) then
                .error (.mappingError "remote media exceeds 10MB limit")
              else .ok ()
      match lengthCheck with
      | .error e => .error e
      | .ok () =>
        match readCapped [] resp.chunks with
        | .error e => .error e
        | .ok buf => .ok (buf, resp.contentType)

/-! ### Media naming and the content block mapper -/

/-- Python `f"{x}"` of a possibly-absent string field (`None` prints as
`"None"`). -/
def showOptStr : Option String → String
  | some s => s
  | none => "None"

/-- `s.split(sep)[-1]`. -/
def lastSplit (s sep : String) : String :=
  (pySplit s sep).getLastD s

/-- `s.split(";", 1)[0]`. -/
def firstSplitSemi (s : String) : String :=
  (pySplit s ";").headD s

/-- `_normalize_media_type` from `src/mapping.py`. -/
def normalize_media_type (media : Option String) : Option String :=
  if ¬truthyStr media then none
  else some (lowerStr (pyStrip (firstSplitSemi (media.getD ""))))

/-- The inner `_clean` of `_sanitize_media_name`: keep alphanumerics, hyphens
and `()[]`, collapse runs of anything else (including whitespace) into a
single space, then strip. -/
def cleanMediaName (raw : String) : String :=
  let step : (List Char × Bool) → Char → (List Char × Bool) := fun acc ch =>
    let (cs, prevSpace) := acc
    if ch.isAlphanum then (cs ++ [ch], false)
    else if ch = '-' ∨ ch = '(' ∨ ch = ')' ∨ ch = '[' ∨ ch = ']' then (cs ++ [ch], false)
    else if prevSpace then (cs, true)
    else (cs ++ [' '], true)
  pyStrip (String.mk (raw.toList.foldl step ([], false)).1)

/-- `_sanitize_media_name` from `src/mapping.py`: first candidate (the value,
then the fallback) whose cleaned form is non-empty, else the fallback, else
`"document"`. -/
def sanitize_media_name (value fallbackName : String) : String :=
  if value ≠ "" ∧ cleanMediaName value ≠ "" then cleanMediaName value
  else if fallbackName ≠ "" ∧ cleanMediaName fallbackName ≠ "" then cleanMediaName fallbackName
  else if fallbackName ≠ "" then fallbackName
  else "document"

/-- The `source` dict of an image/document part; `none` fields are absent
keys.  `media_type_alt` is the `"mediaType"` key, read only by the document
mapper. -/
structure SrcDict where
  type : Option String := none
  media_type : Option String := none
  media_type_alt : Option String := none
  data : Option String := none
  url : Option String := none
  name : Option String := none
  filename : Option String := none

/-- The path component of a URL, as `urlparse(...).path` reports it for the
`http(s)` URLs this code fetches: everything from the first `/` after the
authority, query and fragment stripped. -/
def urlPath (url : String) : String :=
  match pySplit url "://" with
  | [_, rest] =>
    let rest := String.mk (rest.toList.takeWhile (fun c => c ≠ '?' ∧ c ≠ '#'))
    match pySplit rest "/" with
    | [] => ""
    | [_] => ""
    | _ :: segs => "/" ++ String.intercalate "/" segs
  | _ => ""

/-- `name.rsplit(".", 1)` recombined: the part before the last dot. -/
def rsplitDotHead (name : String) : String :=
  String.intercalate "." (pySplit name ".").dropLast

/-- `name.rsplit(".", 1)` recombined: the part after the last dot. -/
def rsplitDotTail (name : String) : String :=
  (pySplit name ".").getLastD name

/-- `_resolve_media_name` from `src/mapping.py`. -/
def resolve_media_name (partName : Option String) (src : SrcDict) (fmt : String)
    (url : Option String) (fallbackKind : String) : String :=
  let name0 := pyOrOpt (pyOrOpt partName src.name) src.filename
  let name1 :=
    if ¬truthyStr name0 ∧ truthyStr url then
      let path := urlPath (url.getD "")
      if path ≠ "" ∧ path ≠ "/" then
        let candidate := (pySplit path "/").getLastD path
        if candidate ≠ "" then some candidate else name0
      else name0
    else name0
  let name2 :=
    match name1 with
    | some n =>
      if (n.toList).contains '.' then
        let head := rsplitDotHead n
        let tail := rsplitDotTail n
        if head ≠ "" ∧ tail ≠ "" then some (head ++ " " ++ upperStr tail) else some n
      else some n
    | none => none
  let fallbackName := if fmt ≠ "" then fallbackKind ++ " " ++ upperStr fmt else fallbackKind
  sanitize_media_name (pyOr name2 fallbackName) fallbackName

/-- A mapped Bedrock image/document payload
`{"format": ..., "name": ..., "source": {"bytes": ...}}`. -/
structure BMedia where
  format : String
  name : String
  bytes : List Nat

/-- `base64.b64decode(data, validate=False)`: an external stdlib primitive,
represented by the code-point sequence of the encoded text (no verified
property inspects decoded bytes). -/
def decode_base64_to_bytes (data_b64 : String) : List Nat :=
  data_b64.toList.map Char.toNat

/-- `to_bedrock_image` from `src/mapping.py`.  `partName` is the part's own
`name` key and `src` its `source` dict (`part.get("source") or {}` makes an
absent source an empty dict). -/
def to_bedrock_image (world : FetchWorld) (allow_url : Bool)
    (partName : Option String) (src : Option SrcDict) : Except MappingErr BMedia :=
  let s := src.getD {}
  if s.type = some "base64" then
    let media := pyOr s.media_type "image/png"
    let fmt := lowerStr (lastSplit media "/")
    .ok { format := fmt,
          name := resolve_media_name partName s fmt none "image",
          bytes := decode_base64_to_bytes (pyOr s.data "") }
  else if s.type = some "url" ∨ s.type = some "image_url" then
    if ¬allow_url then
      .error (.mappingError "remote image URLs not allowed; enable ALLOW_IMAGE_URL_FETCH")
    else if ¬truthyStr s.url then
      .error (.mappingError "image_url source missing 'url'")
    else do
      let (dataBytes, contentType) ← fetch_remote_media world (s.url.getD "")
      let media := pyOr (normalize_media_type (pyOrOpt s.media_type contentType)) "image/png"
      if ¬strStartsWith media "image/" then
        .error (.mappingError ("remote image must have image/* content-type, got '" ++ media ++ "'"))
      else
        let fmt := pyOr (some (lastSplit media "/")) "png"
        .ok { format := lowerStr fmt,
              name := resolve_media_name partName s fmt s.url "image",
              bytes := dataBytes }
  else .error (.mappingError ("unsupported image source type: " ++ showOptStr s.type))

/-- `to_bedrock_document` from `src/mapping.py`. -/
def to_bedrock_document (world : FetchWorld) (allow_url : Bool)
    (partName : Option String) (src : Option SrcDict) : Except MappingErr BMedia :=
  let s := src.getD {}
  if s.type = some "base64" then
    let media := pyOr (pyOrOpt s.media_type s.media_type_alt) "application/pdf"
    let fmt := lowerStr (pyOr (some (lastSplit media "/")) "pdf")
    .ok { format := fmt,
          name := resolve_media_name partName s fmt none "document",
          bytes := decode_base64_to_bytes (pyOr s.data "") }
  else if s.type = some "url" ∨ s.type = some "document_url" then
    if ¬allow_url then
      .error (.mappingError "remote document URLs not allowed; enable ALLOW_IMAGE_URL_FETCH")
    else if ¬truthyStr s.url then
      .error (.mappingError "document_url source missing 'url'")
    else do
      let (dataBytes, contentType) ← fetch_remote_media world (s.url.getD "")
      let media := normalize_media_type (pyOrOpt (pyOrOpt s.media_type s.media_type_alt) contentType)
      if truthyStr media ∧
          ¬(strStartsWith (media.getD "") "application/" ∨ strStartsWith (media.getD "") "text/") then
        .error (.mappingError
          ("remote document content-type '" ++ media.getD "" ++ "' is not supported"))
      else
        let fmt := pyOr (if truthyStr media then some (lastSplit (media.getD "") "/") else none)
          "octet-stream"
        .ok { format := lowerStr fmt,
              name := resolve_media_name partName s fmt s.url "document",
              bytes := dataBytes }
  else .error (.mappingError ("unsupported document source type: " ++ showOptStr s.type))

/-! ### Message correlation engine (`map_messages_to_bedrock`) -/

/-- An Anthropic-side content block (`message.content` list element), keyed by
its `type` field.  `other` is any unrecognized type tag. -/
inductive APart where
  | text (s : String)
  | image (name : Option String) (source : Option SrcDict)
  | document (name : Option String) (source : Option SrcDict)
  | toolUse (id : Option String) (name : Option String) (input : Option JVal)
  | toolResult (tool_use_id : Option String) (content : TRIn) (is_error : Bool)
  | other (ty : Option String)

/-- The `content` field of an Anthropic message: absent, a string shorthand,
or a list of blocks. -/
inductive AContent where
  | none
  | str (s : String)
  | list (parts : List APart)

/-- An Anthropic input message. -/
structure AMessage where
  role : String
  content : AContent

/-- `normalize_content_array` from `src/mapping.py`. -/
def normalize_content_array : AContent → List APart
  | .none => []
  | .str s => [.text s]
  | .list parts => parts

/-- `map_role` from `src/mapping.py`. -/
def map_role (role : String) : String :=
  if role = "tool" then "user"
  else if role = "user" ∨ role = "assistant" then role
  else "user"

/-- A Bedrock-side content block, keyed by its single top-level key. -/
inductive BBlock where
  | text (s : String)
  | image (payload : BMedia)
  | document (payload : BMedia)
  | toolUse (toolUseId : Option String) (name : Option String) (input : JVal)
  | toolResult (toolUseId : Option String) (content : List TROut) (status : String)

/-- A Bedrock output message. -/
structure BMessage where
  role : String
  content : List BBlock

/-- The Bedrock document payload as embedded into a tool result's content:
`{"json": {"document": payload}}` carries the payload dict itself. -/
def BMedia.toJVal (m : BMedia) : JVal :=
  .obj [("format", .str m.format), ("name", .str m.name),
        ("source", .obj [("bytes", .bytes m.bytes)])]

/-- One element of `tool_result_entries`: the original index, the fields of
the `toolResult` block, and its `tool_use_id` (the third tuple component of
the source). -/
structure TREntry where
  idx : Nat
  toolUseId : Option String
  content : List TROut
  status : String

/-- The `toolResult` block an entry finally produces. -/
def TREntry.toBlock (e : TREntry) : BBlock :=
  .toolResult e.toolUseId e.content e.status

/-- The per-turn scan state of `map_messages_to_bedrock`'s classification
loop. -/
structure TurnScan where
  has_text : Bool := false
  has_document : Bool := false
  tool_use_ids : List String := []
  tool_result_entries : List TREntry := []
  other_entries : List (Nat × BBlock) := []

/-- Append `{"json": {"document": payload}}` to the content of the last
collected tool-result entry (`tool_result_entries[-1]` is mutated in the
source). -/
def appendDocToLast (entries : List TREntry) (payload : BMedia) : List TREntry :=
  match entries.getLast? with
  | some lastE =>
    entries.dropLast ++
      [{ lastE with content := lastE.content ++ [.json (.obj [("document", payload.toJVal)])] }]
  | none => entries

/-- One iteration of the classification loop over `content_items`
(`for idx, part in enumerate(content_items)` in the source). -/
def scanStep (world : FetchWorld) (allow : Bool) (st : TurnScan) (idx : Nat) :
    APart → Except MappingErr TurnScan
  | .text s =>
    .ok { st with has_text := true, other_entries := st.other_entries ++ [(idx, .text s)] }
  | .image nm src => do
    let payload ← to_bedrock_image world allow nm src
    .ok { st with other_entries := st.other_entries ++ [(idx, .image payload)] }
  | .document nm src => do
    let payload ← to_bedrock_document world allow nm src
    match st.tool_result_entries.getLast? with
    | some lastE =>
      if lastE.idx ≤ idx then
        .ok { st with tool_result_entries := appendDocToLast st.tool_result_entries payload }
      else
        .ok { st with has_document := true,
                      other_entries := st.other_entries ++ [(idx, .document payload)] }
    | none =>
      .ok { st with has_document := true,
                    other_entries := st.other_entries ++ [(idx, .document payload)] }
  | .toolUse id nm input =>
    let ids :=
      match id with
      | some s => if s = "" then st.tool_use_ids else st.tool_use_ids ++ [s]
      | none => st.tool_use_ids
    .ok { st with tool_use_ids := ids,
                  other_entries :=
                    st.other_entries ++ [(idx, .toolUse id nm (input.getD (.obj [])))] }
  | .toolResult tid content isErr =>
    .ok { st with tool_result_entries := st.tool_result_entries ++
            [{ idx := idx, toolUseId := tid,
               content := to_bedrock_tool_result_content content,
               status := if isErr then "error" else "success" }] }
  | .other ty => .error (.unsupportedContent ("unsupported content type: " ++ showOptStr ty))

/-- The classification loop, threading the index. -/
def scanTurnAux (world : FetchWorld) (allow : Bool) :
    TurnScan → Nat → List APart → Except MappingErr TurnScan
  | st, _, [] => .ok st
  | st, idx, p :: ps => do
    let st' ← scanStep world allow st idx p
    scanTurnAux world allow st' (idx + 1) ps

/-- Classify one turn's content blocks. -/
def scanTurn (world : FetchWorld) (allow : Bool) (parts : List APart) :
    Except MappingErr TurnScan :=
  scanTurnAux world allow {} 0 parts

/-- Stable insertion: `x` goes before the first element it is strictly below,
hence after earlier elements with an equal key — the placement Python's
stable `sorted` gives. -/
def insertByLt (lt : α → α → Bool) (x : α) : List α → List α
  | [] => [x]
  | y :: ys => if lt x y then x :: y :: ys else y :: insertByLt lt x ys

/-- Stable sort by a strict comparison, matching Python's `sorted`. -/
def sortByLt (lt : α → α → Bool) : List α → List α
  | [] => []
  | x :: xs => insertByLt lt x (sortByLt lt xs)

/-- `pending_tool_use_ids.index(tool_use_id)` (callers establish
membership). -/
def indexOfStr : List String → String → Nat
  | [], _ => 0
  | h :: t, s => if h = s then 0 else indexOfStr t s + 1

/-- The `_sort_key` of `map_messages_to_bedrock`: queue-matched entries sort
by queue position then original index; others by
`len(pending) + original index`. -/
def pySortKey (pending : List String) (e : TREntry) : Nat × Nat :=
  match e.toolUseId with
  | some id =>
    if pending.contains id then (indexOfStr pending id, e.idx)
    else (pending.length + e.idx, e.idx)
  | none => (pending.length + e.idx, e.idx)

/-- Strict lexicographic order on sort keys. -/
def lexLt (a b : Nat × Nat) : Bool :=
  a.1 < b.1 ∨ (a.1 = b.1 ∧ a.2 < b.2)

/-- The `ordered_tool_results` computation: sort by `_sort_key` when the role
is not assistant and calls are pending, else keep original order. -/
def orderToolResults (role : String) (pending : List String) (entries : List TREntry) :
    List TREntry :=
  if entries.isEmpty then []
  else if role ≠ "assistant" ∧ ¬pending.isEmpty then
    sortByLt (fun a b => lexLt (pySortKey pending a) (pySortKey pending b)) entries
  else entries

/-- Does a over-the-wire block carry a `toolResult` key? -/
def isToolResultBlock : BBlock → Bool
  | .toolResult _ _ _ => true
  | _ => false

/-- Is a block a `document` block? -/
def isDocBlock : BBlock → Bool
  | .document _ => true
  | _ => false

/-- `list.insert(n, x)` (for `n ≤ len`). -/
def insertAt (n : Nat) (x : α) (l : List α) : List α :=
  l.take n ++ [x] ++ l.drop n

/-- The offset of the first document block, if any (the source's
`for offset, block in enumerate(ordered_non_tool)` search). -/
def firstDocOffset : List BBlock → Option Nat
  | [] => none
  | b :: rest =>
    if isDocBlock b then some 0 else (firstDocOffset rest).map (· + 1)

/-- The placeholder insertion index: offset of the first document block in the
non-tool-result portion, defaulting to the end of the tool results. -/
def placeholderIndex (otrLen : Nat) (nonTool : List BBlock) : Nat :=
  match firstDocOffset nonTool with
  | some o => otrLen + o
  | none => otrLen

/-- Assemble `content_blocks`: ordered tool results, then ordered other
blocks, with a `"Document attached."` placeholder inserted before the first
document when the turn has a document but no text. -/
def buildContent (otr nonTool : List BBlock) (has_document has_text : Bool) : List BBlock :=
  let cb := otr ++ nonTool
  if has_document ∧ ¬has_text then
    insertAt (placeholderIndex otr.length nonTool) (.text "Document attached.") cb
  else cb

/-- The emission split: a user turn with tool results while calls are pending
becomes one singleton turn per tool result, then one turn with any remaining
blocks; otherwise a single turn. -/
def emitTurn (role : String) (otr contentBlocks : List BBlock) (pending : List String) :
    List BMessage :=
  if role = "user" ∧ ¬otr.isEmpty ∧ ¬pending.isEmpty then
    otr.map (fun b => ⟨role, [b]⟩) ++
      (let remaining := contentBlocks.drop otr.length
       if remaining.isEmpty then [] else [⟨role, remaining⟩])
  else [⟨role, contentBlocks⟩]

/-- Remove the first occurrence of `id`.  The source's two branches — pop the
head when it matches, else `list.remove` when present — both remove exactly
the first occurrence and do nothing when absent. -/
def removeFirst : List String → String → List String
  | [], _ => []
  | h :: t, id => if id = h then t else h :: removeFirst t id

/-- The `tool_use_id` of a `toolResult` block, as the queue-update loop reads
it (`none` for any other block). -/
def blockToolResultId : BBlock → Option (Option String)
  | .toolResult tid _ _ => some tid
  | _ => none

/-- The tool-result ids of the emitted turns, in emission order. -/
def emittedToolResultIds (msgs : List BMessage) : List (Option String) :=
  msgs.foldr (fun m acc => m.content.filterMap blockToolResultId ++ acc) []

/-- The queue-update loop for a non-assistant turn: falsy ids are skipped,
every other id removes its first occurrence from the pending queue. -/
def applyToolResults (pending : List String) (ids : List (Option String)) : List String :=
  ids.foldl
    (fun p oid =>
      match oid with
      | none => p
      | some id => if id = "" then p else removeFirst p id)
    pending

/-- `", ".join(ids)`. -/
def joinComma (ids : List String) : String :=
  String.intercalate ", " ids

/-- The turn's ordered tool-result blocks. -/
def turnOtr (role : String) (pending : List String) (scan : TurnScan) : List BBlock :=
  (orderToolResults role pending scan.tool_result_entries).map TREntry.toBlock

/-- The turn's non-tool-result blocks, ordered by original index. -/
def turnNonTool (scan : TurnScan) : List BBlock :=
  (sortByLt (fun a b => a.1 < b.1) scan.other_entries).map Prod.snd

/-- The turn's assembled `content_blocks`. -/
def turnContent (role : String) (pending : List String) (scan : TurnScan) : List BBlock :=
  buildContent (turnOtr role pending scan) (turnNonTool scan) scan.has_document scan.has_text

/-- The turn's emitted messages. -/
def turnEmitted (role : String) (pending : List String) (scan : TurnScan) : List BMessage :=
  emitTurn role (turnOtr role pending scan) (turnContent role pending scan) pending

/-- The pending queue left over after applying a non-assistant turn's
tool-result ids. -/
def turnRemaining (role : String) (pending : List String) (scan : TurnScan) : List String :=
  applyToolResults pending (emittedToolResultIds (turnEmitted role pending scan))

/-- Process one input turn: classify, order, emit, and update the pending
queue, failing when a non-assistant turn leaves calls pending. -/
def processTurn (world : FetchWorld) (allow : Bool) (pending : List String) (msg : AMessage) :
    Except MappingErr (List BMessage × List String) := do
  let role := map_role msg.role
  let scan ← scanTurn world allow (normalize_content_array msg.content)
  let emitted := turnEmitted role pending scan
  if role = "assistant" then
    .ok (emitted, pending ++ scan.tool_use_ids)
  else
    let remaining := turnRemaining role pending scan
    if remaining.isEmpty then .ok (emitted, remaining)
    else .error (.mappingError ("tool_result required for tool_use ids: " ++ joinComma remaining))

/-- The main loop over input turns, accumulating emitted turns and threading
the pending queue. -/
def mainLoop (world : FetchWorld) (allow : Bool) :
    List AMessage → List String → Except MappingErr (List BMessage × List String)
  | [], pending => .ok ([], pending)
  | m :: ms, pending => do
    let (emitted, pending') ← processTurn world allow pending m
    let (rest, pendingF) ← mainLoop world allow ms pending'
    .ok (emitted ++ rest, pendingF)

/-- Does a message's content contain a `toolResult` block
(`has_tool_result` in the source)? -/
def hasToolResult (content : List BBlock) : Bool :=
  content.any isToolResultBlock

/-- The mixed-content post-split pass: a turn holding both tool-result and
other blocks is reordered (tool results first) when its role is user, and
split into two turns otherwise; the inserted second turn is not revisited. -/
def splitPass : List BMessage → List BMessage
  | [] => []
  | m :: rest =>
    if m.content.length ≤ 1 then m :: splitPass rest
    else
      let trs := m.content.filter isToolResultBlock
      let others := m.content.filter (fun b => ¬isToolResultBlock b)
      if ¬trs.isEmpty ∧ ¬others.isEmpty then
        if m.role = "user" then
          { m with content := trs ++ others } :: splitPass rest
        else
          { m with content := trs } :: (⟨m.role, others⟩ : BMessage) :: splitPass rest
      else m :: splitPass rest

/-- The merge condition of the consecutive-user merge pass: both turns are
user turns and neither contains a tool result. -/
def mergeable (m1 m2 : BMessage) : Bool :=
  m1.role = "user" ∧ m2.role = "user" ∧ ¬hasToolResult m1.content ∧ ¬hasToolResult m2.content

/-- The consecutive-user merge loop, with an explicit bound.  Each merge
shortens the list, so running it with the list length as fuel is exactly the
source's `while` loop (the fuel is never exhausted before the loop ends). -/
def mergeLoopFuel : Nat → List BMessage → List BMessage
  | 0, l => l
  | _ + 1, [] => []
  | _ + 1, [m] => [m]
  | n + 1, m1 :: m2 :: rest =>
    if mergeable m1 m2 then
      mergeLoopFuel n (⟨m1.role, m1.content ++ m2.content⟩ :: rest)
    else m1 :: mergeLoopFuel n (m2 :: rest)

/-- The consecutive-user merge pass. -/
def mergeLoop (l : List BMessage) : List BMessage :=
  mergeLoopFuel l.length l

/-- Python `set.add`: append when not already collected. -/
def insertNew (acc : List String) (id : String) : List String :=
  if acc.contains id then acc else acc ++ [id]

/-- The truthy `toolUse.toolUseId` of a block, if any (the final check skips
falsy ids). -/
def blockUseId : BBlock → Option String
  | .toolUse (some id) _ _ => if id = "" then none else some id
  | _ => none

/-- The truthy `toolResult.toolUseId` of a block, if any. -/
def blockResId : BBlock → Option String
  | .toolResult (some id) _ _ => if id = "" then none else some id
  | _ => none

/-- Collect the distinct ids some block projection yields, in first-seen
order (a Python `set`, read back sorted by the callers). -/
def collectIds (f : BBlock → Option String) (msgs : List BMessage) : List String :=
  msgs.foldl
    (fun acc m =>
      m.content.foldl
        (fun acc b =>
          match f b with
          | some id => insertNew acc id
          | none => acc)
        acc)
    []

/-- All truthy `toolUse` ids of the output (`all_tool_use_ids`). -/
def collectUseIds (msgs : List BMessage) : List String :=
  collectIds blockUseId msgs

/-- All truthy `toolResult` ids of the output (`all_tool_result_ids`). -/
def collectResIds (msgs : List BMessage) : List String :=
  collectIds blockResId msgs

/-- `sorted(...)` on a list of distinct strings: Python's lexicographic
code-point order. -/
def sortStrings (l : List String) : List String :=
  sortByLt strLtB l

/-- `sorted(all_tool_use_ids - all_tool_result_ids)`. -/
def unresolvedIds (msgs : List BMessage) : List String :=
  sortStrings ((collectUseIds msgs).filter (fun id => ¬(collectResIds msgs).contains id))

/-- One synthetic placeholder tool result. -/
def syntheticBlock (id : String) : BBlock :=
  .toolResult (some id) [.text "Tool execution pending..."] "success"

/-- The synthetic user turn closing dangling calls. -/
def syntheticMessage (ids : List String) : BMessage :=
  ⟨"user", ids.map syntheticBlock⟩

/-- The per-turn loop followed by the two post-processing passes (everything
of `map_messages_to_bedrock` before the dangling-call closure). -/
def translateTurns (world : FetchWorld) (allow : Bool) (msgs : List AMessage) :
    Except MappingErr (List BMessage) := do
  let (out, _) ← mainLoop world allow msgs []
  .ok (mergeLoop (splitPass out))

/-- `map_messages_to_bedrock` from `src/mapping.py`: the main loop, the split
and merge passes, the dangling-call closure (the synthetic message is
appended exactly when the unresolved set is non-empty) and the final
verification. -/
def map_messages_to_bedrock (world : FetchWorld) (msgs : List AMessage)
    (allow_image_url : Bool) : Except MappingErr (List BMessage) := do
  let out2 ← translateTurns world allow_image_url msgs
  let unresolved := unresolvedIds out2
  let out3 := if unresolved.isEmpty then out2 else out2 ++ [syntheticMessage unresolved]
  let finalUnresolved := unresolvedIds out3
  if finalUnresolved.isEmpty then .ok out3
  else .error (.mappingError ("tool_result required for tool_use ids: " ++ joinComma finalUnresolved))

/-! ### Observable properties of the translated turn list -/

/-- The spec's role-alternation invariant, as stated: no two consecutive
turns share a role. -/
def noConsecSameRole : List BMessage → Bool
  | m1 :: m2 :: rest => m1.role ≠ m2.role ∧ noConsecSameRole (m2 :: rest)
  | _ => true

/-- No adjacent pair of turns satisfies the merge condition: every two
consecutive user turns involve a tool result. -/
def noAdjMergeable : List BMessage → Bool
  | m1 :: m2 :: rest => !mergeable m1 m2 && noAdjMergeable (m2 :: rest)
  | _ => true

/-- The `toolResult` blocks of a turn list, in emission order. -/
def toolResultBlocksOf (msgs : List BMessage) : List BBlock :=
  msgs.foldr (fun m acc => m.content.filter isToolResultBlock ++ acc) []

/-- The (possibly repeating) ids a block projection yields over a turn list,
in emission order; `collectIds` is its deduplication. -/
def idsOf (f : BBlock → Option String) (msgs : List BMessage) : List String :=
  (msgs.map (fun m => m.content.filterMap f)).flatten

/-- Does any block of the output carry the document placeholder text? -/
def hasPlaceholderText (msgs : List BMessage) : Bool :=
  msgs.any (fun m => m.content.any (fun b =>
    match b with
    | .text s => s = "Document attached."
    | _ => false))

/-! ### Streaming event translator (`_streaming_response` in `src/server.py`) -/

/-- `map_stop_reason` from `src/mapping.py`: falsy reasons map to `None`,
known reasons through an identity alias table, unknown reasons pass
through. -/
def map_stop_reason (sr : Option String) : Option String :=
  match sr with
  | none => none
  | some s =>
    if s = "" then none
    else
      let aliasTable := [("end_turn", "end_turn"), ("tool_use", "tool_use"),
                         ("max_tokens", "max_tokens"), ("stop_sequence", "stop_sequence")]
      some ((aliasTable.lookup s).getD s)

/-- Cross-event stream state: the usage counters accumulated from `metadata`
events. -/
structure StreamState where
  inputTokens : Option Int := none
  outputTokens : Option Int := none
deriving DecidableEq

/-- Usage fields carried by one `metadata` event (`none` = key absent). -/
structure UsageFields where
  inputTokens : Option Int := none
  outputTokens : Option Int := none
deriving DecidableEq

/-- The value of a `"text"` key in a `contentBlockStart` start dict: a plain
string, a nested `{"text": ...}` dict, or `null`. -/
inductive TextFieldVal where
  | str (s : String)
  | dict (inner : Option String)
  | null

/-- The `content` field of a `toolResult` start: a list of entries, or some
other (scalar) value passed through unchanged. -/
inductive TRStartContent where
  | list (items : List TROut)
  | scalar (j : JVal)

/-- The recognized variants of a `contentBlockStart`'s `start` dict
(`cbs.get("start") or cbs.get("contentBlock") or {}`); `other` is a dict with
none of the three recognized keys. -/
inductive StartVariant where
  | text (v : TextFieldVal)
  | toolUse (id : Option String) (name : Option String) (input : Option JVal)
  | toolResult (id : Option String) (content : Option TRStartContent) (status : Option String)
  | other

/-- The `content` field of a `toolResult` delta: a `{"partialJson": ...}`
dict or a list of entries. -/
inductive TRDeltaContent where
  | dict (partialJson : Option String)
  | list (items : List TROut)

/-- The recognized variants of a `contentBlockDelta`'s `delta` dict. -/
inductive DeltaVariant where
  | text (s : String)
  | toolUse (inputPartialJson : Option String) (inputJson : Option String)
      (partialJson : Option String)
  | toolResult (content : Option TRDeltaContent) (partialJson : Option String)
  | other

/-- One low-level Bedrock stream event (a dict with exactly one key naming
its type).  `malformed` stands for any event whose dynamic field accesses
raise while being mapped — in the source every event is an arbitrary dict and
the per-event `try` converts such exceptions into a terminal error frame. -/
inductive BedrockStreamEvent where
  | messageStart
  | contentBlockStart (index : Int) (start : StartVariant)
  | contentBlockDelta (index : Int) (delta : DeltaVariant)
  | contentBlockStop (index : Int)
  | messageStop (stopReason : Option String)
  | metadata (usage : Option UsageFields)
  | unknown
  | malformed (msg : String)

/-- The tool-result content payload of a `content_block_start` frame: the
decoded scalar/blocks, or a non-list value passed through. -/
inductive TRContentOut where
  | decoded (d : TRDecoded)
  | raw (j : JVal)

/-- The `content_block` payload of a `content_block_start` frame. -/
inductive CBlockOut where
  | text (s : String)
  | toolUse (id : Option String) (name : Option String) (input : JVal)
  | toolResult (tool_use_id : Option String) (is_error : Bool) (content : TRContentOut)

/-- The `delta` payload of a `content_block_delta` frame. -/
inductive DeltaOut where
  | textDelta (s : String)
  | inputJsonDelta (partialStr : String)
  | outputJsonDelta (partialStr : String)

/-- One SSE frame emitted to the client.  A `message_delta` records its
`stop_reason` (whose presence implies a `stop_sequence: null` field on the
wire) and its usage dict when one is known. -/
inductive SSEFrame where
  | message_start (id : String) (model : Option String)
  | content_block_start (index : Int) (block : CBlockOut)
  | content_block_delta (index : Int) (delta : DeltaOut)
  | content_block_stop (index : Int)
  | message_delta (stop_reason : Option String) (usage : Option StreamState)
  | message_stop
  | error (etype : String) (message : String)

/-- The text payload of a text `content_block_start`: unwrap a nested dict,
then `text_value or ""`. -/
def textStartPayload : TextFieldVal → String
  | .str s => s
  | .dict inner => pyOr inner ""
  | .null => ""

/-- The tool-result content of a `content_block_start`: lists are decoded via
`from_bedrock_tool_result_content`, an absent field becomes `""`, anything
else passes through. -/
def trStartContent : Option TRStartContent → TRContentOut
  | some (.list items) => .decoded (from_bedrock_tool_result_content items)
  | some (.scalar j) => .raw j
  | none => .decoded (.str "")

/-- Update the usage counters from a `metadata` event: fields present
overwrite, absent fields retain their prior value. -/
def applyMetadata (st : StreamState) : Option UsageFields → StreamState
  | none => st
  | some u =>
    { inputTokens := match u.inputTokens with | some v => some v | none => st.inputTokens,
      outputTokens := match u.outputTokens with | some v => some v | none => st.outputTokens }

/-- Map one provider event to its emitted frames and the next stream state,
mirroring the per-event dispatch of `_streaming_response`.  A `malformed`
event is one whose mapping raises. -/
def mapStreamEvent (st : StreamState) : BedrockStreamEvent →
    Except String (List SSEFrame × StreamState)
  | .messageStart => .ok ([], st)
  | .contentBlockStart i start =>
    match start with
    | .text v => .ok ([.content_block_start i (.text (textStartPayload v))], st)
    | .toolUse id nm input =>
      .ok ([.content_block_start i (.toolUse id nm (input.getD (.obj [])))], st)
    | .toolResult id content status =>
      .ok ([.content_block_start i
              (.toolResult id (status = some "error") (trStartContent content))], st)
    | .other => .ok ([], st)
  | .contentBlockDelta i delta =>
    match delta with
    | .text s => .ok ([.content_block_delta i (.textDelta s)], st)
    | .toolUse inputPartialJson inputJson partialJson =>
      let partialStr := pyOr (pyOrOpt (pyOrOpt inputPartialJson inputJson) partialJson) ""
      .ok ([.content_block_delta i (.inputJsonDelta partialStr)], st)
    | .toolResult content partialJson =>
      let fromDict :=
        match content with
        | some (.dict pj) => pj
        | _ => none
      let partialStr := match fromDict with | some pj => some pj | none => partialJson
      match partialStr with
      | some pj => .ok ([.content_block_delta i (.outputJsonDelta pj)], st)
      | none =>
        match content with
        | some (.list (first :: _)) =>
          match first with
          | .text s => .ok ([.content_block_delta i (.textDelta s)], st)
          | _ => .ok ([], st)
        | _ => .ok ([], st)
    | .other => .ok ([], st)
  | .contentBlockStop i => .ok ([.content_block_stop i], st)
  | .messageStop sr =>
    let stop := map_stop_reason sr
    let frames :=
      if stop.isSome ∨ st.inputTokens.isSome ∨ st.outputTokens.isSome then
        let payloadStop := stop
        let payloadUsage :=
          if st.inputTokens.isSome ∨ st.outputTokens.isSome then some st else none
        if payloadStop.isSome ∨ payloadUsage.isSome then
          [SSEFrame.message_delta payloadStop payloadUsage]
        else []
      else []
    .ok (frames ++ [.message_stop], st)
  | .metadata usage => .ok ([], applyMetadata st usage)
  | .unknown => .ok ([], st)
  | .malformed msg => .error msg

/-- The event loop: frames of each event in order; the first event whose
mapping raises yields exactly one `stream_parse_error` frame and ends the
stream (no later event is consumed). -/
def streamLoop (st : StreamState) : List BedrockStreamEvent → List SSEFrame
  | [] => []
  | e :: rest =>
    match mapStreamEvent st e with
    | .ok (frames, st') => frames ++ streamLoop st' rest
    | .error msg => [.error "stream_parse_error" msg]

/-- The full streaming translation: a `message_start` frame (with a fresh
message id and the request's model) followed by the event loop from an empty
usage state. -/
def translateStream (msgId : String) (model : Option String)
    (events : List BedrockStreamEvent) : List SSEFrame :=
  .message_start msgId model :: streamLoop {} events

/-- A network where every fetch fails (the concrete inputs below never
fetch). -/
def noFetch : FetchWorld := fun _ => .failure "network unavailable"

/-! ### Helper lemmas: the stable sort -/

theorem insertByLt_perm (lt : α → α → Bool) (x : α) (l : List α) :
    (insertByLt lt x l).Perm (x :: l) := by
  induction l with
  | nil => exact List.Perm.refl _
  | cons y ys ih =>
    simp only [insertByLt]
    by_cases h : lt x y
    · simp [h]
    · simp only [h, if_false]
      exact (List.Perm.cons y ih).trans (List.Perm.swap x y ys)

theorem sortByLt_perm (lt : α → α → Bool) (l : List α) :
    (sortByLt lt l).Perm l := by
  induction l with
  | nil => exact List.Perm.refl _
  | cons x xs ih =>
    exact (insertByLt_perm lt x (sortByLt lt xs)).trans (List.Perm.cons x ih)

theorem mem_insertByLt {lt : α → α → Bool} {x y : α} {l : List α}
    (h : y ∈ insertByLt lt x l) : y = x ∨ y ∈ l := by
  have := (insertByLt_perm lt x l).mem_iff.mp h
  simpa using this

theorem pairwise_insertByLt (lt : α → α → Bool)
    (asym : ∀ a b, lt a b = true → lt b a = false)
    (tr : ∀ a b c, lt a b = true → lt b c = true → lt a c = true)
    (x : α) (l : List α) (hl : l.Pairwise (fun a b => lt b a = false)) :
    (insertByLt lt x l).Pairwise (fun a b => lt b a = false) := by
  induction l with
  | nil => simp [insertByLt]
  | cons y ys ih =>
    rcases List.pairwise_cons.mp hl with ⟨hy, hys⟩
    simp only [insertByLt]
    by_cases h : lt x y
    · simp only [h, if_true]
      refine List.pairwise_cons.mpr ⟨?_, hl⟩
      intro z hz
      rcases List.mem_cons.mp hz with hz | hz
      · subst hz; exact asym _ _ h
      · rcases Bool.eq_false_or_eq_true (lt z x) with h' | h'
        · have htr := tr z x y h' h
          rw [hy z hz] at htr
          exact absurd htr (by simp)
        · exact h'
    · simp only [h, if_false]
      refine List.pairwise_cons.mpr ⟨?_, ih hys⟩
      intro z hz
      rcases mem_insertByLt hz with hz | hz
      · subst hz
        exact Bool.eq_false_iff.mpr h
      · exact hy z hz

theorem sortByLt_pairwise (lt : α → α → Bool)
    (asym : ∀ a b, lt a b = true → lt b a = false)
    (tr : ∀ a b c, lt a b = true → lt b c = true → lt a c = true)
    (l : List α) : (sortByLt lt l).Pairwise (fun a b => lt b a = false) := by
  induction l with
  | nil => simp [sortByLt]
  | cons x xs ih => exact pairwise_insertByLt lt asym tr x _ ih

theorem lexLt_asymm (a b : Nat × Nat) (h : lexLt a b = true) : lexLt b a = false := by
  simp only [lexLt, decide_eq_true_eq] at h
  simp only [lexLt, decide_eq_false_iff_not]
  omega

theorem lexLt_trans (a b c : Nat × Nat) (h1 : lexLt a b = true) (h2 : lexLt b c = true) :
    lexLt a c = true := by
  simp only [lexLt, decide_eq_true_eq] at h1 h2 ⊢
  omega

theorem charListLt_asymm : ∀ a b, charListLt a b = true → charListLt b a = false := by
  intro a
  induction a with
  | nil => intro b h; cases b <;> simp_all [charListLt]
  | cons x xs ih =>
    intro b h
    cases b with
    | nil => simp_all [charListLt]
    | cons y ys =>
      simp only [charListLt, decide_eq_true_eq] at h
      simp only [charListLt, decide_eq_false_iff_not, not_or]
      rcases h with h | ⟨he, hrec⟩
      · exact ⟨by omega, by rintro ⟨he2, _⟩; omega⟩
      · refine ⟨by omega, ?_⟩
        rintro ⟨_, hr⟩
        have hres := ih ys hrec
        rw [hres] at hr
        exact absurd hr (by simp)

theorem charListLt_trans : ∀ a b c, charListLt a b = true → charListLt b c = true →
    charListLt a c = true := by
  intro a
  induction a with
  | nil =>
    intro b c h1 h2
    cases c with
    | nil => cases b <;> simp_all [charListLt]
    | cons z zs => simp [charListLt]
  | cons x xs ih =>
    intro b c h1 h2
    cases b with
    | nil => simp_all [charListLt]
    | cons y ys =>
      cases c with
      | nil => simp_all [charListLt]
      | cons z zs =>
        simp only [charListLt, decide_eq_true_eq] at h1 h2 ⊢
        rcases h1 with h1 | ⟨h1e, h1r⟩ <;> rcases h2 with h2 | ⟨h2e, h2r⟩
        · left; omega
        · left; omega
        · left; omega
        · right; exact ⟨by omega, ih ys zs h1r h2r⟩

theorem strLtB_asymm (a b : String) (h : strLtB a b = true) : strLtB b a = false :=
  charListLt_asymm _ _ h

theorem strLtB_trans (a b c : String) (h1 : strLtB a b = true) (h2 : strLtB b c = true) :
    strLtB a c = true :=
  charListLt_trans _ _ _ h1 h2

theorem sortStrings_perm (l : List String) : (sortStrings l).Perm l :=
  sortByLt_perm _ l

theorem sortStrings_sorted (l : List String) :
    (sortStrings l).Pairwise (fun a b => strLtB b a = false) :=
  sortByLt_pairwise _ strLtB_asymm strLtB_trans l

/-! ### Claim C6: tool-result content round-trip -/

/-- C6: tool-result content round-trips as specified: a bare string `"ok"`
encodes and decodes back to the bare string; a two-element typed list
round-trips to a two-element typed list (not a scalar); the empty list
decodes to the empty string; and any singleton list whose entry carries only
a text field decodes to the bare string. -/
theorem c6_tool_result_roundtrip :
    from_bedrock_tool_result_content (to_bedrock_tool_result_content (.str "ok")) = .str "ok" ∧
    from_bedrock_tool_result_content (to_bedrock_tool_result_content
        (.list [.item (some "text") (some "x") none,
                .item (some "json") none (some (.obj [("a", .num 1)]))]))
      = .blocks [.text "x", .json (.obj [("a", .num 1)])] ∧
    from_bedrock_tool_result_content [] = .str "" ∧
    ∀ s : String, from_bedrock_tool_result_content [.text s] = .str s :=
  ⟨rfl, rfl, rfl, fun _ => rfl⟩

/-! ### Claim C7: remote media fetch guards -/

theorem readCapped_overflow : ∀ (chunks : List (List Nat)) (buf : List Nat),
    (∀ c ∈ chunks, c ≠ []) →
    buf.length ≤ MAX_REMOTE_MEDIA_BYTES →
    MAX_REMOTE_MEDIA_BYTES < buf.length + (chunks.map List.length).sum →
    readCapped buf chunks = .error (.mappingError "remote media exceeds 10MB limit") := by
  intro chunks
  induction chunks with
  | nil =>
    intro buf _ hle hgt
    simp at hgt
    omega
  | cons c rest ih =>
    intro buf hne hle hgt
    have hcne : c ≠ [] := hne c (List.mem_cons_self c rest)
    simp only [readCapped, if_neg hcne]
    split_ifs with hover
    · rfl
    · refine ih (buf ++ c) (fun d hd => hne d (List.mem_cons_of_mem c hd)) ?_ ?_
      · simp only [List.length_append] at hover ⊢
        omega
      · simp only [List.length_append] at hover ⊢
        simp only [List.map_cons, List.sum_cons] at hgt
        omega

/-- C7: a remote media fetch with a non-`http(s)` scheme fails; a declared
`Content-Length` above 10 MiB, or accumulated body bytes above 10 MiB, fails
with the size-cap error and returns no partial result; a network failure
fails with the remote-fetch error. -/
theorem c7_remote_fetch_guards :
    (∀ (world : FetchWorld) (url : String),
        urlScheme url ≠ "http" → urlScheme url ≠ "https" →
        fetch_remote_media world url =
          .error (.mappingError "remote media URLs must use http or https")) ∧
    (∀ (world : FetchWorld) (url : String) (resp : HttpResponse) (cl : String) (n : Int),
        (urlScheme url = "http" ∨ urlScheme url = "https") →
        world url = .success resp →
        resp.contentLength = some cl → pyParseInt cl = some n →
        (MAX_REMOTE_MEDIA_BYTES : Int) < n →
        fetch_remote_media world url =
          .error (.mappingError "remote media exceeds 10MB limit")) ∧
    (∀ (world : FetchWorld) (url : String) (resp : HttpResponse),
        (urlScheme url = "http" ∨ urlScheme url = "https") →
        world url = .success resp →
        (∀ c ∈ resp.chunks, c ≠ []) →
        MAX_REMOTE_MEDIA_BYTES < (resp.chunks.map List.length).sum →
        fetch_remote_media world url =
          .error (.mappingError "remote media exceeds 10MB limit")) ∧
    (∀ (world : FetchWorld) (url : String) (msg : String),
        (urlScheme url = "http" ∨ urlScheme url = "https") →
        world url = .failure msg →
        fetch_remote_media world url =
          .error (.mappingError ("failed to fetch remote media: " ++ msg))) := by
  have hsch : ∀ (url : String), urlScheme url = "http" ∨ urlScheme url = "https" →
      ¬(urlScheme url ≠ "http" ∧ urlScheme url ≠ "https") := by
    intro url h
    rcases h with h | h <;> simp [h]
  refine ⟨?_, ?_, ?_, ?_⟩
  · intro world url h1 h2
    simp [fetch_remote_media, h1, h2]
  · intro world url resp cl n hok hw hcl hn hgt
    simp only [fetch_remote_media, if_neg (hsch url hok), hw, hcl]
    have hclne : cl ≠ "" := by
      intro he
      rw [he] at hn
      simp [pyParseInt, pyStrip] at hn
    simp only [if_neg hclne, hn]
    have : n > (MAX_REMOTE_MEDIA_BYTES : Int) := hgt
    simp [this]
  · intro world url resp hok hw hne hgt
    simp only [fetch_remote_media, if_neg (hsch url hok), hw]
    have hread := readCapped_overflow resp.chunks [] hne (by simp [MAX_REMOTE_MEDIA_BYTES]) (by simpa using hgt)
    rcases hcl : resp.contentLength with _ | cl
    · simp [hread]
    · by_cases hclne : cl = ""
      · simp [hclne, hread]
      · simp only [if_neg hclne]
        rcases hpn : pyParseInt cl with _ | n
        · simp [hread]
        · by_cases hbig : n > (MAX_REMOTE_MEDIA_BYTES : Int)
          · simp [hbig]
          · simp [hbig, hread]
  · intro world url msg hok hw
    simp [fetch_remote_media, if_neg (hsch url hok), hw]

/-- Witness for C7: the guards at concrete inputs — an `ftp` URL, a response
declaring 10 MiB + 1 bytes, a body of 10 MiB + 1 actual bytes, and a
timed-out connection. -/
theorem c7_remote_fetch_guards_witness :
    fetch_remote_media noFetch "ftp://host/file" =
      .error (.mappingError "remote media URLs must use http or https") ∧
    fetch_remote_media (fun _ => .success ⟨none, some "10485761", []⟩) "https://host/big" =
      .error (.mappingError "remote media exceeds 10MB limit") ∧
    fetch_remote_media (fun _ => .success ⟨none, none, [List.replicate 10485761 0]⟩)
        "http://host/big" =
      .error (.mappingError "remote media exceeds 10MB limit") ∧
    fetch_remote_media (fun _ => .failure "timed out") "http://host/x" =
      .error (.mappingError "failed to fetch remote media: timed out") := by
  refine ⟨?_, ?_, ?_, ?_⟩
  · exact c7_remote_fetch_guards.1 _ _ (by decide) (by decide)
  · exact c7_remote_fetch_guards.2.1 _ _ ⟨none, some "10485761", []⟩ "10485761" 10485761
      (by right; decide) rfl rfl (by decide) (by decide)
  · refine c7_remote_fetch_guards.2.2.1 _ _ ⟨none, none, [List.replicate 10485761 0]⟩
      (by left; decide) rfl ?_ ?_
    · intro c hc
      simp only [List.mem_singleton] at hc
      subst hc
      intro h
      have hlen := congrArg List.length h
      simp only [List.length_replicate, List.length_nil] at hlen
      exact absurd hlen (by decide)
    · simp only [List.map_cons, List.map_nil, List.sum_cons, List.sum_nil,
        List.length_replicate, MAX_REMOTE_MEDIA_BYTES]
      decide
  · exact c7_remote_fetch_guards.2.2.2 _ _ "timed out" (by left; decide) rfl

/-! ### Claim C8: the streaming frame sequence -/

/-- C8: for the provider events block-start(text), block-delta(text "Hi"),
block-stop, metadata(usage 3/5), message-stop("end_turn"), the translator
emits, in order, `content_block_start`, `content_block_delta` with `"Hi"`,
`content_block_stop`, one `message_delta` carrying the stop reason and usage,
then `message_stop`; and a `metadata` event emits no frame, overwriting only
the usage fields it carries. -/
theorem c8_streaming_sequence :
    (translateStream "msg_t" (some "m")
        [.contentBlockStart 0 (.text .null),
         .contentBlockDelta 0 (.text "Hi"),
         .contentBlockStop 0,
         .metadata (some { inputTokens := some 3, outputTokens := some 5 }),
         .messageStop (some "end_turn")]
      = [.message_start "msg_t" (some "m"),
         .content_block_start 0 (.text ""),
         .content_block_delta 0 (.textDelta "Hi"),
         .content_block_stop 0,
         .message_delta (some "end_turn")
           (some { inputTokens := some 3, outputTokens := some 5 }),
         .message_stop]) ∧
    (∀ (st : StreamState) (u : Option UsageFields),
        mapStreamEvent st (.metadata u) = .ok ([], applyMetadata st u)) ∧
    (∀ st : StreamState, applyMetadata st none = st) ∧
    (∀ (st : StreamState) (a b : Option Int),
        (applyMetadata st (some ⟨a, b⟩)).inputTokens
            = (if a.isSome then a else st.inputTokens) ∧
        (applyMetadata st (some ⟨a, b⟩)).outputTokens
            = (if b.isSome then b else st.outputTokens)) := by
  refine ⟨rfl, fun st u => rfl, fun st => rfl, fun st a b => ⟨?_, ?_⟩⟩
  · cases a <;> simp [applyMetadata]
  · cases b <;> simp [applyMetadata]

/-! ### Claim C9: a mapping exception terminates the stream -/

/-- C9: whenever mapping one provider event raises, the event loop emits
exactly one `stream_parse_error` frame and terminates: no later event is
consumed and no later frame emitted, whatever the rest of the stream held. -/
theorem c9_stream_parse_error_terminates
    (st : StreamState) (e : BedrockStreamEvent) (msg : String)
    (rest : List BedrockStreamEvent)
    (h : mapStreamEvent st e = .error msg) :
    streamLoop st (e :: rest) = [.error "stream_parse_error" msg] := by
  simp [streamLoop, h]

/-- Witness for C9: a malformed event followed by a block-stop event yields
only the error frame. -/
theorem c9_stream_parse_error_terminates_witness :
    streamLoop {} [.malformed "boom", .contentBlockStop 0]
      = [.error "stream_parse_error" "boom"] :=
  c9_stream_parse_error_terminates {} (.malformed "boom") "boom" [.contentBlockStop 0] rfl

/-! ### Helper lemmas: the consecutive-user merge pass -/

theorem hasToolResult_append (a b : List BBlock) :
    hasToolResult (a ++ b) = (hasToolResult a || hasToolResult b) :=
  List.any_append

theorem mergeable_iff (m1 m2 : BMessage) :
    mergeable m1 m2 = true ↔
      (m1.role = "user" ∧ m2.role = "user" ∧
       hasToolResult m1.content = false ∧ hasToolResult m2.content = false) := by
  simp [mergeable]

theorem mergeable_false_of_tr (x m : BMessage) (h : hasToolResult m.content = true) :
    mergeable x m = false := by
  rcases Bool.eq_false_or_eq_true (mergeable x m) with h' | h'
  · rcases (mergeable_iff x m).mp h' with ⟨_, _, _, h4⟩
    rw [h] at h4
    exact absurd h4 (by simp)
  · exact h'

theorem mergeLoopFuel_head : ∀ (n : Nat) (m : BMessage) (rest : List BMessage),
    (m :: rest).length ≤ n →
    ∃ m' t, mergeLoopFuel n (m :: rest) = m' :: t ∧ m'.role = m.role ∧
      (hasToolResult m.content = true → hasToolResult m'.content = true) := by
  intro n
  induction n with
  | zero =>
    intro m rest h
    simp at h
  | succ k ih =>
    intro m rest h
    cases rest with
    | nil => exact ⟨m, [], rfl, rfl, fun h => h⟩
    | cons m2 rest2 =>
      simp only [mergeLoopFuel]
      by_cases hm : mergeable m m2
      · rw [if_pos hm]
        have hlen :
            ((⟨m.role, m.content ++ m2.content⟩ : BMessage) :: rest2).length ≤ k := by
          simp only [List.length_cons] at h ⊢
          omega
        obtain ⟨m', t, heq, hrole, htr⟩ := ih _ _ hlen
        refine ⟨m', t, heq, hrole, ?_⟩
        intro hm1
        refine htr ?_
        simp only [hasToolResult_append, hm1, Bool.true_or]
      · rw [if_neg hm]
        exact ⟨m, _, rfl, rfl, fun h => h⟩

theorem mergeable_false_of_head (m1 m2 m' : BMessage)
    (hne : mergeable m1 m2 = false) (hrole : m'.role = m2.role)
    (htr : hasToolResult m2.content = true → hasToolResult m'.content = true) :
    mergeable m1 m' = false := by
  rcases Bool.eq_false_or_eq_true (mergeable m1 m') with h' | h'
  · exfalso
    rcases (mergeable_iff m1 m').mp h' with ⟨hu1, hu2, hn1, hn2⟩
    have hm2role : m2.role = "user" := hrole ▸ hu2
    have hm2tr : hasToolResult m2.content = false := by
      rcases Bool.eq_false_or_eq_true (hasToolResult m2.content) with h2 | h2
      · rw [htr h2] at hn2
        exact absurd hn2 (by simp)
      · exact h2
    have hmrg := (mergeable_iff m1 m2).mpr ⟨hu1, hm2role, hn1, hm2tr⟩
    rw [hmrg] at hne
    exact absurd hne (by simp)
  · exact h'

theorem mergeLoopFuel_noAdj : ∀ (n : Nat) (l : List BMessage), l.length ≤ n →
    noAdjMergeable (mergeLoopFuel n l) = true := by
  intro n
  induction n with
  | zero =>
    intro l h
    have : l = [] := by
      cases l with
      | nil => rfl
      | cons a t => simp at h
    subst this
    rfl
  | succ k ih =>
    intro l h
    match l with
    | [] => rfl
    | [m] => rfl
    | m1 :: m2 :: rest =>
      simp only [mergeLoopFuel]
      by_cases hm : mergeable m1 m2
      · rw [if_pos hm]
        refine ih _ ?_
        simp only [List.length_cons] at h ⊢
        omega
      · rw [if_neg hm]
        have hlen2 : (m2 :: rest).length ≤ k := by
          simp only [List.length_cons] at h ⊢
          omega
        obtain ⟨m', t, heq, hrole, htr⟩ := mergeLoopFuel_head k m2 rest hlen2
        have h2 := ih (m2 :: rest) hlen2
        rw [heq] at h2
        rw [heq]
        have h1 : mergeable m1 m' = false :=
          mergeable_false_of_head m1 m2 m' (Bool.eq_false_iff.mpr hm) hrole htr
        simp only [noAdjMergeable, h1, h2, Bool.not_false, Bool.true_and]

theorem mergeLoop_noAdj (l : List BMessage) : noAdjMergeable (mergeLoop l) = true :=
  mergeLoopFuel_noAdj l.length l (le_refl _)

theorem noAdjMergeable_append (m : BMessage) (hm : ∀ x, mergeable x m = false) :
    ∀ l : List BMessage, noAdjMergeable l = true → noAdjMergeable (l ++ [m]) = true := by
  intro l
  induction l with
  | nil => intro _; rfl
  | cons a l ih =>
    intro hl
    cases l with
    | nil =>
      simp only [List.nil_append, List.cons_append, noAdjMergeable, hm a, Bool.not_false,
        Bool.true_and]
    | cons b l2 =>
      simp only [noAdjMergeable, Bool.and_eq_true, Bool.not_eq_true'] at hl
      have htail := ih hl.2
      simp only [List.cons_append] at htail ⊢
      simp only [noAdjMergeable, Bool.and_eq_true, Bool.not_eq_true']
      exact ⟨hl.1, htail⟩

/-! ### Helper lemmas: the shape of a successful translation -/

theorem except_bind_error {α β : Type} (e : MappingErr) (f : α → Except MappingErr β) :
    (Except.error e >>= f) = Except.error e := rfl

theorem except_bind_ok {α β : Type} (a : α) (f : α → Except MappingErr β) :
    (Except.ok a >>= f) = f a := rfl

theorem map_messages_ok_cases (world : FetchWorld) (allow : Bool) (msgs : List AMessage)
    (out : List BMessage)
    (h : map_messages_to_bedrock world msgs allow = .ok out) :
    ∃ out1 pending, mainLoop world allow msgs [] = .ok (out1, pending) ∧
      ((unresolvedIds (mergeLoop (splitPass out1)) = [] ∧ out = mergeLoop (splitPass out1)) ∨
       (unresolvedIds (mergeLoop (splitPass out1)) ≠ [] ∧
        out = mergeLoop (splitPass out1) ++
          [syntheticMessage (unresolvedIds (mergeLoop (splitPass out1)))])) := by
  cases hml : mainLoop world allow msgs [] with
  | error e =>
    rw [map_messages_to_bedrock, translateTurns, hml] at h
    simp only [except_bind_error] at h
    exact absurd h (by simp)
  | ok res =>
    obtain ⟨out1, pending⟩ := res
    refine ⟨out1, pending, rfl, ?_⟩
    rw [map_messages_to_bedrock, translateTurns, hml] at h
    simp only [except_bind_error, except_bind_ok] at h
    by_cases hu : (unresolvedIds (mergeLoop (splitPass out1))).isEmpty
    · left
      rw [if_pos hu] at h
      rw [if_pos hu] at h
      exact ⟨List.isEmpty_iff.mp hu, ((Except.ok.injEq _ _).mp h).symm⟩
    · right
      rw [if_neg hu] at h
      refine ⟨by simpa [List.isEmpty_iff] using hu, ?_⟩
      cases hfi : (unresolvedIds (mergeLoop (splitPass out1) ++
          [syntheticMessage (unresolvedIds (mergeLoop (splitPass out1)))])).isEmpty with
      | true =>
        rw [if_pos hfi] at h
        exact ((Except.ok.injEq _ _).mp h).symm
      | false =>
        rw [if_neg (by simp [hfi])] at h
        exact absurd h (by simp)

/-! ### Claim C1: role alternation of the output -/

/-- C1 counterexample: two assistant text turns translate successfully into
two consecutive turns of equal role, so the output is not free of consecutive
same-role turns. -/
theorem c1_counterexample :
    map_messages_to_bedrock noFetch
        [⟨"assistant", .list [.text "a"]⟩, ⟨"assistant", .list [.text "b"]⟩] false
      = .ok [⟨"assistant", [.text "a"]⟩, ⟨"assistant", [.text "b"]⟩] ∧
    noConsecSameRole [⟨"assistant", [.text "a"]⟩, ⟨"assistant", [.text "b"]⟩] = false :=
  ⟨rfl, rfl⟩

/-- C1 (amended): for every input for which translation succeeds, the output
contains no two consecutive User-role turns of which neither contains a
tool-result block (the merge pass's guarantee); consecutive same-role turns
in general can survive. -/
theorem c1_no_adjacent_plain_user_turns (world : FetchWorld) (allow : Bool)
    (msgs : List AMessage) (out : List BMessage)
    (h : map_messages_to_bedrock world msgs allow = .ok out) :
    noAdjMergeable out = true := by
  obtain ⟨out1, pending, hml, hcase⟩ := map_messages_ok_cases world allow msgs out h
  rcases hcase with ⟨_, rfl⟩ | ⟨hne, rfl⟩
  · exact mergeLoop_noAdj _
  · refine noAdjMergeable_append _ ?_ _ (mergeLoop_noAdj _)
    intro x
    apply mergeable_false_of_tr
    rcases hu : unresolvedIds (mergeLoop (splitPass out1)) with _ | ⟨i, us⟩
    · exact absurd hu hne
    · simp [syntheticMessage, syntheticBlock, hasToolResult, isToolResultBlock, hu]

/-- Witness for C1 (amended): a successful one-turn translation whose output
satisfies the invariant. -/
theorem c1_no_adjacent_plain_user_turns_witness :
    map_messages_to_bedrock noFetch [⟨"user", .list [.text "hi"]⟩] false
      = .ok [⟨"user", [.text "hi"]⟩] ∧
    noAdjMergeable [⟨"user", [.text "hi"]⟩] = true :=
  ⟨rfl, c1_no_adjacent_plain_user_turns noFetch false [⟨"user", .list [.text "hi"]⟩]
    [⟨"user", [.text "hi"]⟩] rfl⟩

/-! ### Helper lemmas: the collected tool-use and tool-result id sets -/

theorem contains_mem {l : List String} {a : String} : l.contains a = true ↔ a ∈ l := by
  simp

theorem mem_insertNew (acc : List String) (a x : String) :
    x ∈ insertNew acc a ↔ x ∈ acc ∨ x = a := by
  by_cases hc : acc.contains a
  · simp only [insertNew, hc, if_true]
    exact ⟨Or.inl, fun h => h.elim id (fun hx => hx ▸ contains_mem.mp hc)⟩
  · have hnm : a ∉ acc := fun hmem => hc (contains_mem.mpr hmem)
    simp [insertNew, hnm]

theorem mem_collect_blocks (f : BBlock → Option String) :
    ∀ (blocks : List BBlock) (acc : List String) (x : String),
      (x ∈ blocks.foldl
          (fun acc b => match f b with | some id => insertNew acc id | none => acc) acc) ↔
        x ∈ acc ∨ x ∈ blocks.filterMap f := by
  intro blocks
  induction blocks with
  | nil => intro acc x; simp
  | cons b t ih =>
    intro acc x
    simp only [List.foldl_cons]
    cases hf : f b with
    | none => simp only [hf, ih, List.filterMap_cons, hf]
    | some id =>
      simp only [hf, ih, List.filterMap_cons, hf, mem_insertNew, List.mem_cons]
      tauto

theorem mem_collectIds (f : BBlock → Option String) (msgs : List BMessage) (x : String) :
    x ∈ collectIds f msgs ↔ x ∈ idsOf f msgs := by
  suffices haux : ∀ (ms : List BMessage) (acc : List String),
      (x ∈ ms.foldl
          (fun acc m => m.content.foldl
            (fun acc b => match f b with | some id => insertNew acc id | none => acc) acc) acc) ↔
        x ∈ acc ∨ x ∈ idsOf f ms by
    rw [collectIds]
    rw [haux msgs []]
    simp
  intro ms
  induction ms with
  | nil => intro acc; simp [idsOf]
  | cons m t ih =>
    intro acc
    simp only [List.foldl_cons]
    rw [ih, mem_collect_blocks]
    simp only [idsOf, List.map_cons, List.flatten_cons, List.mem_append]
    tauto

theorem mem_collectUseIds (msgs : List BMessage) (x : String) :
    x ∈ collectUseIds msgs ↔ x ∈ idsOf blockUseId msgs :=
  mem_collectIds blockUseId msgs x

theorem mem_collectResIds (msgs : List BMessage) (x : String) :
    x ∈ collectResIds msgs ↔ x ∈ idsOf blockResId msgs :=
  mem_collectIds blockResId msgs x

theorem idsOf_append (f : BBlock → Option String) (l1 l2 : List BMessage) :
    idsOf f (l1 ++ l2) = idsOf f l1 ++ idsOf f l2 := by
  simp [idsOf]

theorem blockUseId_synthetic (id : String) : blockUseId (syntheticBlock id) = none := rfl

theorem blockResId_synthetic (id : String) :
    blockResId (syntheticBlock id) = if id = "" then none else some id := rfl

theorem idsOf_use_synthetic (u : List String) :
    idsOf blockUseId [syntheticMessage u] = [] := by
  simp only [idsOf, syntheticMessage, List.map_cons, List.map_nil, List.flatten_cons,
    List.flatten_nil, List.append_nil]
  induction u with
  | nil => rfl
  | cons id t ih =>
    simp only [List.map_cons, List.filterMap_cons, blockUseId_synthetic]
    exact ih

theorem mem_filterMap_res_synthetic (u : List String) (x : String) :
    x ∈ List.filterMap blockResId (u.map syntheticBlock) ↔ x ∈ u ∧ x ≠ "" := by
  induction u with
  | nil => simp
  | cons id t ih =>
    simp only [List.map_cons, List.filterMap_cons, blockResId_synthetic]
    by_cases hid : id = ""
    · rw [if_pos hid]
      rw [ih]
      subst hid
      simp only [List.mem_cons]
      constructor
      · rintro ⟨h, hne⟩
        exact ⟨Or.inr h, hne⟩
      · rintro ⟨h | h, hne⟩
        · exact absurd h hne
        · exact ⟨h, hne⟩
    · rw [if_neg hid]
      simp only [List.mem_cons, ih]
      constructor
      · rintro (rfl | ⟨h, hne⟩)
        · exact ⟨Or.inl rfl, hid⟩
        · exact ⟨Or.inr h, hne⟩
      · rintro ⟨rfl | h, hne⟩
        · exact Or.inl rfl
        · exact Or.inr ⟨h, hne⟩

theorem mem_idsOf_res_synthetic (u : List String) (x : String) :
    x ∈ idsOf blockResId [syntheticMessage u] ↔ x ∈ u ∧ x ≠ "" := by
  simp only [idsOf, syntheticMessage, List.map_cons, List.map_nil, List.flatten_cons,
    List.flatten_nil, List.append_nil]
  exact mem_filterMap_res_synthetic u x

theorem blockUseId_some_ne (b : BBlock) (x : String) (h : blockUseId b = some x) :
    x ≠ "" := by
  cases b with
  | toolUse tid nm input =>
    cases tid with
    | none => simp [blockUseId] at h
    | some id =>
      by_cases hid : id = ""
      · simp [blockUseId, hid] at h
      · simp only [blockUseId, if_neg hid, Option.some.injEq] at h
        subst h
        exact hid
  | text s => simp [blockUseId] at h
  | image p => simp [blockUseId] at h
  | document p => simp [blockUseId] at h
  | toolResult tid c st => simp [blockUseId] at h

theorem mem_idsOf_use_ne_empty (msgs : List BMessage) (x : String)
    (h : x ∈ idsOf blockUseId msgs) : x ≠ "" := by
  simp only [idsOf, List.mem_flatten] at h
  obtain ⟨l, hl, hx⟩ := h
  simp only [List.mem_map] at hl
  obtain ⟨m, _, rfl⟩ := hl
  obtain ⟨b, _, hb⟩ := List.mem_filterMap.mp hx
  exact blockUseId_some_ne b x hb

theorem sortStrings_eq_nil (l : List String) : sortStrings l = [] ↔ l = [] := by
  constructor
  · intro h
    have hp := sortStrings_perm l
    rw [h] at hp
    exact hp.symm.eq_nil
  · intro h
    rw [h]
    rfl

theorem mem_sortStrings (l : List String) (x : String) : x ∈ sortStrings l ↔ x ∈ l :=
  (sortStrings_perm l).mem_iff

theorem unresolvedIds_subset_closure (out : List BMessage) (a : String)
    (ha : a ∈ collectUseIds (out ++ [syntheticMessage (unresolvedIds out)])) :
    a ∈ collectResIds (out ++ [syntheticMessage (unresolvedIds out)]) := by
  rw [mem_collectUseIds, idsOf_append, idsOf_use_synthetic, List.append_nil] at ha
  have hne : a ≠ "" := mem_idsOf_use_ne_empty out a ha
  rw [mem_collectResIds, idsOf_append, List.mem_append, mem_idsOf_res_synthetic]
  by_cases hres : a ∈ idsOf blockResId out
  · exact Or.inl hres
  · refine Or.inr ⟨?_, hne⟩
    rw [unresolvedIds, mem_sortStrings, List.mem_filter]
    refine ⟨(mem_collectUseIds _ _).mpr ha, ?_⟩
    simp only [decide_eq_true_eq]
    intro hcontains
    exact hres ((mem_collectResIds _ _).mp (contains_mem.mp hcontains))

theorem unresolvedIds_closed (out : List BMessage) :
    unresolvedIds (out ++ [syntheticMessage (unresolvedIds out)]) = [] := by
  rw [unresolvedIds, sortStrings_eq_nil]
  rw [List.filter_eq_nil_iff]
  intro a ha
  simp only [decide_eq_true_eq, Decidable.not_not]
  exact contains_mem.mpr (unresolvedIds_subset_closure out a ha)

/-! ### Claim C2: closure of dangling tool calls -/

/-- C2 counterexample: a conversation whose last turn is an Assistant turn
issuing call `"x"` with no later turn supplying its result; translation
succeeds and appends the synthetic turn, but the emitted ToolCall id set does
not equal the emitted ToolResult id set — the orphan result id `"y"` from the
first turn is a ToolResult id with no ToolCall. -/
theorem c2_counterexample :
    map_messages_to_bedrock noFetch
        [⟨"user", .list [.toolResult (some "y") (.str "r") false]⟩,
         ⟨"assistant", .list [.toolUse (some "x") (some "fs") none]⟩] false
      = .ok [⟨"user", [.toolResult (some "y") [.text "r"] "success"]⟩,
             ⟨"assistant", [.toolUse (some "x") (some "fs") (.obj [])]⟩,
             ⟨"user", [.toolResult (some "x")
                [.text "Tool execution pending..."] "success"]⟩] ∧
    "y" ∈ collectResIds
        [⟨"user", [.toolResult (some "y") [.text "r"] "success"]⟩,
         ⟨"assistant", [.toolUse (some "x") (some "fs") (.obj [])]⟩,
         ⟨"user", [.toolResult (some "x") [.text "Tool execution pending..."] "success"]⟩] ∧
    "y" ∉ collectUseIds
        [⟨"user", [.toolResult (some "y") [.text "r"] "success"]⟩,
         ⟨"assistant", [.toolUse (some "x") (some "fs") (.obj [])]⟩,
         ⟨"user", [.toolResult (some "x") [.text "Tool execution pending..."] "success"]⟩] :=
  ⟨rfl, by decide, by decide⟩

/-- C2 (amended): whenever the per-turn loop and the split/merge passes
succeed and some emitted ToolCall id is matched by no emitted ToolResult id
(in particular, a final Assistant turn issuing calls whose ids appear in no
ToolResult block), translation succeeds and the output is the processed list
plus exactly one additional User-role turn holding one synthetic
`Tool execution pending...` result per unresolved id, ids in sorted order;
afterwards every emitted ToolCall id is contained in the emitted ToolResult
id set (equality can fail: extra ToolResult ids may have no ToolCall). -/
theorem c2_dangling_call_closure (world : FetchWorld) (allow : Bool)
    (msgs : List AMessage) (out1 : List BMessage)
    (h1 : translateTurns world allow msgs = .ok out1)
    (h2 : unresolvedIds out1 ≠ []) :
    map_messages_to_bedrock world msgs allow
        = .ok (out1 ++ [syntheticMessage (unresolvedIds out1)]) ∧
    (syntheticMessage (unresolvedIds out1)).role = "user" ∧
    (unresolvedIds out1).Pairwise (fun a b => strLtB b a = false) ∧
    (∀ id, id ∈ collectUseIds (out1 ++ [syntheticMessage (unresolvedIds out1)]) →
        id ∈ collectResIds (out1 ++ [syntheticMessage (unresolvedIds out1)])) := by
  refine ⟨?_, rfl, sortStrings_sorted _, unresolvedIds_subset_closure out1⟩
  rw [map_messages_to_bedrock, h1, except_bind_ok]
  have hne : ¬(unresolvedIds out1).isEmpty := by simpa [List.isEmpty_iff] using h2
  simp only []
  rw [if_neg hne]
  rw [if_pos (by rw [unresolvedIds_closed out1]; rfl)]

/-- Witness for C2 (amended): a single Assistant turn issuing calls `"id2"`
then `"id1"`; the synthetic closing turn lists them sorted as
`["id1", "id2"]`. -/
theorem c2_dangling_call_closure_witness :
    translateTurns noFetch false
        [⟨"assistant", .list [.toolUse (some "id2") (some "fs") none,
                              .toolUse (some "id1") (some "fs") none]⟩]
      = .ok [⟨"assistant", [.toolUse (some "id2") (some "fs") (.obj []),
                            .toolUse (some "id1") (some "fs") (.obj [])]⟩] ∧
    unresolvedIds [⟨"assistant", [.toolUse (some "id2") (some "fs") (.obj []),
                                  .toolUse (some "id1") (some "fs") (.obj [])]⟩]
      = ["id1", "id2"] ∧
    map_messages_to_bedrock noFetch
        [⟨"assistant", .list [.toolUse (some "id2") (some "fs") none,
                              .toolUse (some "id1") (some "fs") none]⟩] false
      = .ok [⟨"assistant", [.toolUse (some "id2") (some "fs") (.obj []),
                            .toolUse (some "id1") (some "fs") (.obj [])]⟩,
             ⟨"user", [.toolResult (some "id1")
                         [.text "Tool execution pending..."] "success",
                       .toolResult (some "id2")
                         [.text "Tool execution pending..."] "success"]⟩] :=
  ⟨rfl, rfl,
    (c2_dangling_call_closure noFetch false
      [⟨"assistant", .list [.toolUse (some "id2") (some "fs") none,
                            .toolUse (some "id1") (some "fs") none]⟩]
      [⟨"assistant", [.toolUse (some "id2") (some "fs") (.obj []),
                      .toolUse (some "id1") (some "fs") (.obj [])]⟩]
      rfl (by decide)).1⟩

/-! ### Helper lemmas: the main loop over turns -/

theorem mainLoop_append (world : FetchWorld) (allow : Bool) :
    ∀ (l1 l2 : List AMessage) (pending : List String),
      mainLoop world allow (l1 ++ l2) pending =
        match mainLoop world allow l1 pending with
        | .error e => .error e
        | .ok (o1, p1) =>
          match mainLoop world allow l2 p1 with
          | .error e => .error e
          | .ok (o2, p2) => .ok (o1 ++ o2, p2) := by
  intro l1
  induction l1 with
  | nil =>
    intro l2 pending
    simp only [List.nil_append, mainLoop]
    cases mainLoop world allow l2 pending with
    | error e => rfl
    | ok res => rfl
  | cons m t ih =>
    intro l2 pending
    simp only [List.cons_append, mainLoop]
    cases hp : processTurn world allow pending m with
    | error e => rfl
    | ok res =>
      obtain ⟨em, p'⟩ := res
      simp only [except_bind_ok, List.append_eq]
      rw [ih l2 p']
      cases h1 : mainLoop world allow t p' with
      | error e => rfl
      | ok r1 =>
        obtain ⟨o1, p1⟩ := r1
        cases h2 : mainLoop world allow l2 p1 with
        | error e => simp [h2, except_bind_ok, except_bind_error]
        | ok r2 =>
          obtain ⟨o2, p2⟩ := r2
          simp [h2, except_bind_ok, List.append_assoc]

theorem processTurn_error_of_remaining (world : FetchWorld) (allow : Bool)
    (pending : List String) (msg : AMessage) (scan : TurnScan)
    (hscan : scanTurn world allow (normalize_content_array msg.content) = .ok scan)
    (hrole : map_role msg.role ≠ "assistant")
    (hrem : turnRemaining (map_role msg.role) pending scan ≠ []) :
    processTurn world allow pending msg = .error (.mappingError
      ("tool_result required for tool_use ids: " ++
        joinComma (turnRemaining (map_role msg.role) pending scan))) := by
  rw [processTurn]
  rw [hscan, except_bind_ok]
  simp only []
  rw [if_neg hrole]
  rw [if_neg (by simpa [List.isEmpty_iff] using hrem)]

theorem mainLoop_error_cons (world : FetchWorld) (allow : Bool) (m : AMessage)
    (ms : List AMessage) (pending : List String) (e : MappingErr)
    (h : processTurn world allow pending m = .error e) :
    mainLoop world allow (m :: ms) pending = .error e := by
  simp [mainLoop, h, except_bind_error]

theorem map_messages_error_of_mainLoop (world : FetchWorld) (allow : Bool)
    (msgs : List AMessage) (e : MappingErr)
    (h : mainLoop world allow msgs [] = .error e) :
    map_messages_to_bedrock world msgs allow = .error e := by
  rw [map_messages_to_bedrock, translateTurns, h]
  rfl

/-! ### Claim C3: a non-assistant turn must drain the pending queue -/

/-- C3: whenever, after some successfully processed prefix, a non-Assistant
turn is processed while the pending queue is non-empty and the turn's
tool-result ids fail to remove every queued id, the whole translation fails
immediately with the `tool_result required for tool_use ids` error naming the
remaining queued ids — whatever turns follow, and with no output produced. -/
theorem c3_unresolved_queue_fails (world : FetchWorld) (allow : Bool)
    (pre : List AMessage) (msg : AMessage) (rest : List AMessage)
    (out1 : List BMessage) (pending : List String) (scan : TurnScan)
    (hml : mainLoop world allow pre [] = .ok (out1, pending))
    (hrole : map_role msg.role ≠ "assistant")
    (_hpend : pending ≠ [])
    (hscan : scanTurn world allow (normalize_content_array msg.content) = .ok scan)
    (hrem : turnRemaining (map_role msg.role) pending scan ≠ []) :
    map_messages_to_bedrock world (pre ++ msg :: rest) allow = .error (.mappingError
      ("tool_result required for tool_use ids: " ++
        joinComma (turnRemaining (map_role msg.role) pending scan))) := by
  apply map_messages_error_of_mainLoop
  rw [mainLoop_append world allow pre (msg :: rest) [], hml]
  have hstep := mainLoop_error_cons world allow msg rest pending _
    (processTurn_error_of_remaining world allow pending msg scan hscan hrole hrem)
  simp [hstep]

/-- Witness for C3: the assistant issues call `"tu1"`; the following user
turn carries only text, so translation fails naming `tu1`. -/
theorem c3_unresolved_queue_fails_witness :
    map_messages_to_bedrock noFetch
        [⟨"assistant", .list [.toolUse (some "tu1") (some "fs") none]⟩,
         ⟨"user", .list [.text "no result"]⟩] false
      = .error (.mappingError "tool_result required for tool_use ids: tu1") :=
  c3_unresolved_queue_fails noFetch false
    [⟨"assistant", .list [.toolUse (some "tu1") (some "fs") none]⟩]
    ⟨"user", .list [.text "no result"]⟩ []
    [⟨"assistant", [.toolUse (some "tu1") (some "fs") (.obj [])]⟩] ["tu1"]
    { has_text := true, other_entries := [(0, .text "no result")] }
    rfl (by decide) (by decide) rfl (by decide)

/-! ### Helper lemmas: scan invariants and the emitted tool-result blocks -/

theorem scanStep_other_shape (world : FetchWorld) (allow : Bool) (st : TurnScan) (idx : Nat)
    (part : APart) (st' : TurnScan)
    (h : scanStep world allow st idx part = .ok st') :
    st'.other_entries = st.other_entries ∨
    ∃ b, isToolResultBlock b = false ∧ st'.other_entries = st.other_entries ++ [(idx, b)] := by
  cases part with
  | text s =>
    simp only [scanStep, Except.ok.injEq] at h
    subst h
    exact Or.inr ⟨.text s, rfl, rfl⟩
  | image nm src =>
    simp only [scanStep] at h
    cases hi : to_bedrock_image world allow nm src with
    | error e =>
      rw [hi, except_bind_error] at h
      exact absurd h (by simp)
    | ok payload =>
      rw [hi, except_bind_ok] at h
      simp only [Except.ok.injEq] at h
      subst h
      exact Or.inr ⟨.image payload, rfl, rfl⟩
  | document nm src =>
    simp only [scanStep] at h
    cases hi : to_bedrock_document world allow nm src with
    | error e =>
      rw [hi, except_bind_error] at h
      exact absurd h (by simp)
    | ok payload =>
      rw [hi, except_bind_ok] at h
      cases hl : st.tool_result_entries.getLast? with
      | none =>
        rw [hl] at h
        simp only [Except.ok.injEq] at h
        subst h
        exact Or.inr ⟨.document payload, rfl, rfl⟩
      | some lastE =>
        rw [hl] at h
        by_cases hle : lastE.idx ≤ idx
        · simp only [if_pos hle, Except.ok.injEq] at h
          subst h
          exact Or.inl rfl
        · simp only [if_neg hle, Except.ok.injEq] at h
          subst h
          exact Or.inr ⟨.document payload, rfl, rfl⟩
  | toolUse id nm input =>
    simp only [scanStep, Except.ok.injEq] at h
    subst h
    exact Or.inr ⟨.toolUse id nm (input.getD (.obj [])), rfl, rfl⟩
  | toolResult tid content isErr =>
    simp only [scanStep, Except.ok.injEq] at h
    subst h
    exact Or.inl rfl
  | other ty =>
    simp only [scanStep] at h
    exact absurd h (by simp)

theorem scanTurnAux_other_inv (world : FetchWorld) (allow : Bool) :
    ∀ (parts : List APart) (st : TurnScan) (idx : Nat) (st' : TurnScan),
      scanTurnAux world allow st idx parts = .ok st' →
      (∀ p ∈ st.other_entries, isToolResultBlock p.2 = false) →
      ∀ p ∈ st'.other_entries, isToolResultBlock p.2 = false := by
  intro parts
  induction parts with
  | nil =>
    intro st idx st' h hst
    simp only [scanTurnAux, Except.ok.injEq] at h
    subst h
    exact hst
  | cons p ps ih =>
    intro st idx st' h hst
    simp only [scanTurnAux] at h
    cases hs : scanStep world allow st idx p with
    | error e =>
      rw [hs, except_bind_error] at h
      exact absurd h (by simp)
    | ok st1 =>
      rw [hs, except_bind_ok] at h
      refine ih st1 (idx + 1) st' h ?_
      rcases scanStep_other_shape world allow st idx p st1 hs with heq | ⟨b, hb, heq⟩
      · rw [heq]; exact hst
      · rw [heq]
        intro q hq
        rcases List.mem_append.mp hq with hq | hq
        · exact hst q hq
        · rcases List.mem_singleton.mp hq with rfl
          exact hb

theorem scanTurn_other_inv (world : FetchWorld) (allow : Bool) (parts : List APart)
    (scan : TurnScan) (h : scanTurn world allow parts = .ok scan) :
    ∀ p ∈ scan.other_entries, isToolResultBlock p.2 = false :=
  scanTurnAux_other_inv world allow parts {} 0 scan h (by intro p hp; simp at hp)

theorem turnNonTool_no_tr (scan : TurnScan)
    (hinv : ∀ p ∈ scan.other_entries, isToolResultBlock p.2 = false) :
    ∀ b ∈ turnNonTool scan, isToolResultBlock b = false := by
  intro b hb
  simp only [turnNonTool, List.mem_map] at hb
  obtain ⟨p, hp, rfl⟩ := hb
  exact hinv p ((sortByLt_perm _ scan.other_entries).mem_iff.mp hp)

theorem mem_insertAt (n : Nat) (y x : α) (l : List α) (h : x ∈ insertAt n y l) :
    x = y ∨ x ∈ l := by
  simp only [insertAt, List.mem_append, List.mem_singleton] at h
  rcases h with (h | h) | h
  · exact Or.inr (List.mem_of_mem_take h)
  · exact Or.inl h
  · exact Or.inr (List.mem_of_mem_drop h)

theorem insertAt_append (l1 l2 : List α) (k : Nat) (x : α) :
    insertAt (l1.length + k) x (l1 ++ l2) = l1 ++ insertAt k x l2 := by
  induction l1 with
  | nil => simp [insertAt]
  | cons a t ih =>
    simp only [List.length_cons, List.cons_append]
    have : t.length + 1 + k = (t.length + k) + 1 := by omega
    rw [this]
    simp only [insertAt, List.take_succ_cons, List.drop_succ_cons, List.cons_append]
    have ihx := ih
    simp only [insertAt] at ihx
    rw [ihx]

theorem buildContent_decomp (otr nonTool : List BBlock) (hd ht : Bool) :
    ∃ X, buildContent otr nonTool hd ht = otr ++ X ∧
      (∀ b ∈ X, b ∈ nonTool ∨ b = .text "Document attached.") := by
  rw [buildContent]
  by_cases hc : hd = true ∧ ¬ht = true
  · rw [if_pos hc]
    have hidx : placeholderIndex otr.length nonTool
        = otr.length + (firstDocOffset nonTool).getD 0 := by
      rw [placeholderIndex]
      cases firstDocOffset nonTool with
      | none => simp
      | some o => simp
    rw [hidx, insertAt_append]
    refine ⟨insertAt ((firstDocOffset nonTool).getD 0) (.text "Document attached.") nonTool,
      rfl, ?_⟩
    intro b hb
    rcases mem_insertAt _ _ _ _ hb with hb | hb
    · exact Or.inr hb
    · exact Or.inl hb
  · rw [if_neg hc]
    exact ⟨nonTool, rfl, fun b hb => Or.inl hb⟩

theorem filter_tr_map_toBlock (entries : List TREntry) :
    (entries.map TREntry.toBlock).filter isToolResultBlock = entries.map TREntry.toBlock := by
  refine List.filter_eq_self.mpr ?_
  intro b hb
  obtain ⟨e, _, rfl⟩ := List.mem_map.mp hb
  rfl

theorem filter_tr_nonTool_nil (X : List BBlock)
    (hX : ∀ b ∈ X, isToolResultBlock b = false) :
    X.filter isToolResultBlock = [] := by
  rw [List.filter_eq_nil_iff]
  intro b hb
  rw [hX b hb]
  simp

theorem toolResultBlocksOf_append (l1 l2 : List BMessage) :
    toolResultBlocksOf (l1 ++ l2) = toolResultBlocksOf l1 ++ toolResultBlocksOf l2 := by
  induction l1 with
  | nil => rfl
  | cons m t ih =>
    simp only [List.cons_append, toolResultBlocksOf, List.foldr_cons] at ih ⊢
    rw [ih]
    simp [List.append_assoc]

theorem toolResultBlocksOf_singletons (role : String) (blocks : List BBlock)
    (hb : ∀ b ∈ blocks, isToolResultBlock b = true) :
    toolResultBlocksOf (blocks.map (fun b => (⟨role, [b]⟩ : BMessage))) = blocks := by
  induction blocks with
  | nil => rfl
  | cons b t ih =>
    simp only [List.map_cons, toolResultBlocksOf, List.foldr_cons] at ih ⊢
    rw [List.filter_cons_of_pos (hb b (List.mem_cons_self b t))]
    rw [ih (fun x hx => hb x (List.mem_cons_of_mem b hx))]
    rfl

theorem toolResultBlocksOf_turnEmitted (role : String) (pending : List String)
    (scan : TurnScan)
    (hinv : ∀ p ∈ scan.other_entries, isToolResultBlock p.2 = false) :
    toolResultBlocksOf (turnEmitted role pending scan) = turnOtr role pending scan := by
  have hotr : ∀ b ∈ turnOtr role pending scan, isToolResultBlock b = true := by
    intro b hb
    obtain ⟨e, _, rfl⟩ := List.mem_map.mp hb
    rfl
  obtain ⟨X, hX, hXmem⟩ :=
    buildContent_decomp (turnOtr role pending scan) (turnNonTool scan)
      scan.has_document scan.has_text
  have hXtr : ∀ b ∈ X, isToolResultBlock b = false := by
    intro b hb
    rcases hXmem b hb with hb' | hb'
    · exact turnNonTool_no_tr scan hinv b hb'
    · subst hb'; rfl
  rw [turnEmitted, emitTurn]
  by_cases hcond : role = "user" ∧ ¬(turnOtr role pending scan).isEmpty = true ∧
      ¬pending.isEmpty = true
  · rw [if_pos hcond]
    rw [toolResultBlocksOf_append]
    rw [toolResultBlocksOf_singletons role _ hotr]
    have hdrop : (turnContent role pending scan).drop (turnOtr role pending scan).length = X := by
      rw [turnContent, hX, List.drop_left]
    rw [hdrop]
    by_cases hrem : X.isEmpty = true
    · rw [if_pos hrem]
      simp [toolResultBlocksOf]
    · rw [if_neg hrem]
      simp only [toolResultBlocksOf, List.foldr_cons, List.foldr_nil, List.append_nil]
      rw [filter_tr_nonTool_nil X hXtr]
      simp
  · rw [if_neg hcond]
    simp only [toolResultBlocksOf, List.foldr_cons, List.foldr_nil, List.append_nil]
    rw [turnContent, hX, List.filter_append]
    rw [turnOtr, filter_tr_map_toBlock, filter_tr_nonTool_nil X hXtr]
    simp [turnOtr]

theorem orderToolResults_sort (role : String) (pending : List String)
    (entries : List TREntry) (hrole : role ≠ "assistant") (hpend : pending ≠ []) :
    orderToolResults role pending entries =
      sortByLt (fun a b => lexLt (pySortKey pending a) (pySortKey pending b)) entries := by
  rw [orderToolResults]
  by_cases he : entries.isEmpty
  · rw [if_pos he]
    rw [List.isEmpty_iff.mp he]
    rfl
  · rw [if_neg he]
    rw [if_pos ⟨hrole, by simpa [List.isEmpty_iff] using hpend⟩]

theorem processTurn_ok_emitted (world : FetchWorld) (allow : Bool)
    (pending : List String) (msg : AMessage) (scan : TurnScan)
    (em : List BMessage) (p' : List String)
    (hscan : scanTurn world allow (normalize_content_array msg.content) = .ok scan)
    (hok : processTurn world allow pending msg = .ok (em, p')) :
    em = turnEmitted (map_role msg.role) pending scan := by
  rw [processTurn, hscan, except_bind_ok] at hok
  simp only [] at hok
  by_cases hr : map_role msg.role = "assistant"
  · rw [if_pos hr] at hok
    simp only [Except.ok.injEq, Prod.mk.injEq] at hok
    exact hok.1.symm
  · rw [if_neg hr] at hok
    by_cases hrem : (turnRemaining (map_role msg.role) pending scan).isEmpty
    · rw [if_pos hrem] at hok
      simp only [Except.ok.injEq, Prod.mk.injEq] at hok
      exact hok.1.symm
    · rw [if_neg hrem] at hok
      exact absurd hok (by simp)

/-! ### Claim C4: ordering of emitted tool results -/

/-- C4: for a successfully processed non-Assistant turn with a non-empty
pending queue, the tool-result blocks it emits are exactly its tool-result
entries sorted by the key (position of the id in the pending queue, original
index) — a permutation of the entries whose keys are non-decreasing, with
entries whose id is not in the queue keyed after all queue-matched ones by
original index (the key's very definition). -/
theorem c4_tool_result_sorting (world : FetchWorld) (allow : Bool)
    (pending : List String) (msg : AMessage) (scan : TurnScan)
    (em : List BMessage) (p' : List String)
    (hscan : scanTurn world allow (normalize_content_array msg.content) = .ok scan)
    (hrole : map_role msg.role ≠ "assistant")
    (hpend : pending ≠ [])
    (hok : processTurn world allow pending msg = .ok (em, p')) :
    toolResultBlocksOf em =
      (sortByLt (fun a b => lexLt (pySortKey pending a) (pySortKey pending b))
        scan.tool_result_entries).map TREntry.toBlock ∧
    (sortByLt (fun a b => lexLt (pySortKey pending a) (pySortKey pending b))
        scan.tool_result_entries).Perm scan.tool_result_entries ∧
    (sortByLt (fun a b => lexLt (pySortKey pending a) (pySortKey pending b))
        scan.tool_result_entries).Pairwise
      (fun a b => lexLt (pySortKey pending b) (pySortKey pending a) = false) := by
  refine ⟨?_, sortByLt_perm _ _,
    sortByLt_pairwise (fun a b => lexLt (pySortKey pending a) (pySortKey pending b))
      (fun a b h => lexLt_asymm (pySortKey pending a) (pySortKey pending b) h)
      (fun a b c h1 h2 =>
        lexLt_trans (pySortKey pending a) (pySortKey pending b) (pySortKey pending c) h1 h2)
      scan.tool_result_entries⟩
  rw [processTurn_ok_emitted world allow pending msg scan em p' hscan hok]
  rw [toolResultBlocksOf_turnEmitted _ _ _ (scanTurn_other_inv world allow _ scan hscan)]
  rw [turnOtr, orderToolResults_sort _ _ _ hrole hpend]

/-- Witness for C4: calls outstanding in order `id1, id2`; a user turn
supplying results in order `id2, id1` emits them reordered `id1` then
`id2`. -/
theorem c4_tool_result_sorting_witness :
    processTurn noFetch false ["id1", "id2"]
        ⟨"user", .list [.toolResult (some "id2") (.str "second") false,
                        .toolResult (some "id1") (.str "first") false]⟩
      = .ok ([⟨"user", [.toolResult (some "id1") [.text "first"] "success"]⟩,
              ⟨"user", [.toolResult (some "id2") [.text "second"] "success"]⟩], []) ∧
    toolResultBlocksOf
        [⟨"user", [.toolResult (some "id1") [.text "first"] "success"]⟩,
         ⟨"user", [.toolResult (some "id2") [.text "second"] "success"]⟩]
      = [.toolResult (some "id1") [.text "first"] "success",
         .toolResult (some "id2") [.text "second"] "success"] :=
  ⟨rfl,
    (c4_tool_result_sorting noFetch false ["id1", "id2"]
      ⟨"user", .list [.toolResult (some "id2") (.str "second") false,
                      .toolResult (some "id1") (.str "first") false]⟩
      { tool_result_entries := [⟨0, some "id2", [.text "second"], "success"⟩,
                               ⟨1, some "id1", [.text "first"], "success"⟩] }
      [⟨"user", [.toolResult (some "id1") [.text "first"] "success"]⟩,
       ⟨"user", [.toolResult (some "id2") [.text "second"] "success"]⟩] []
      rfl (by decide) (by decide) rfl).1⟩

/-! ### Claim C5: the document placeholder -/

theorem firstDocOffset_spec : ∀ (l : List BBlock) (k : Nat),
    firstDocOffset l = some k →
    (∀ b ∈ l.take k, isDocBlock b = false) ∧
    (∃ b t, l.drop k = b :: t ∧ isDocBlock b = true) := by
  intro l
  induction l with
  | nil => intro k h; simp [firstDocOffset] at h
  | cons b rest ih =>
    intro k h
    by_cases hb : isDocBlock b
    · rw [firstDocOffset, if_pos hb] at h
      rcases Option.some.injEq .. |>.mp h with rfl
      exact ⟨by simp, b, rest, rfl, hb⟩
    · rw [firstDocOffset, if_neg hb] at h
      cases hrec : firstDocOffset rest with
      | none => rw [hrec] at h; simp at h
      | some j =>
        rw [hrec] at h
        simp only [Option.map_some', Option.some.injEq] at h
        subst h
        obtain ⟨htake, b', t', hdrop, hb'⟩ := ih j hrec
        refine ⟨?_, b', t', by simpa using hdrop, hb'⟩
        intro x hx
        simp only [List.take_succ_cons, List.mem_cons] at hx
        rcases hx with rfl | hx
        · exact Bool.eq_false_iff.mpr hb
        · exact htake x hx

/-- C5 counterexample: a user turn holding a tool result followed by a
Document block — the turn contains a Document and no Text, yet no
`"Document attached."` placeholder is inserted anywhere: the document is
absorbed into the preceding tool result instead. -/
theorem c5_counterexample :
    map_messages_to_bedrock noFetch
        [⟨"user", .list [.toolResult (some "t1") (.str "ok") false,
                         .document none (some { type := some "base64",
                                                media_type := some "application/pdf",
                                                data := some "QUJD" })]⟩] false
      = .ok [⟨"user", [.toolResult (some "t1")
              [.text "ok",
               .json (.obj [("document", .obj [("format", .str "pdf"),
                  ("name", .str "document PDF"),
                  ("source", .obj [("bytes", .bytes (decode_base64_to_bytes "QUJD"))])])])]
              "success"]⟩] ∧
    hasPlaceholderText [⟨"user", [.toolResult (some "t1")
              [.text "ok",
               .json (.obj [("document", .obj [("format", .str "pdf"),
                  ("name", .str "document PDF"),
                  ("source", .obj [("bytes", .bytes (decode_base64_to_bytes "QUJD"))])])])]
              "success"]⟩] = false :=
  ⟨rfl, rfl⟩

/-- C5 (amended): for a turn whose scan leaves at least one Document block in
the non-tool-result portion (has-document set) and no Text block, the
assembled content inserts `Text{"Document attached."}` immediately before
the first document of the non-tool-result portion; a turn with a Text block
receives no placeholder.  (A Document absorbed into a preceding ToolResult
sets no flag and triggers no placeholder.) -/
theorem c5_document_placeholder (otr nonTool : List BBlock) (k : Nat)
    (hfind : firstDocOffset nonTool = some k) :
    (buildContent otr nonTool true false
        = otr ++ nonTool.take k ++ [.text "Document attached."] ++ nonTool.drop k ∧
      (∀ b ∈ nonTool.take k, isDocBlock b = false) ∧
      (∃ b t, nonTool.drop k = b :: t ∧ isDocBlock b = true)) ∧
    (∀ hd : Bool, buildContent otr nonTool hd true = otr ++ nonTool) := by
  obtain ⟨htake, hdrop⟩ := firstDocOffset_spec nonTool k hfind
  constructor
  · refine ⟨?_, htake, hdrop⟩
    rw [buildContent, if_pos (by simp)]
    have hidx : placeholderIndex otr.length nonTool = otr.length + k := by
      rw [placeholderIndex, hfind]
    rw [hidx, insertAt_append]
    simp [insertAt, List.append_assoc]
  · intro hd
    rw [buildContent, if_neg (by simp)]

/-- Witness for C5 (amended): a lone document block gains the placeholder in
front of it; with text present it does not. -/
theorem c5_document_placeholder_witness :
    buildContent [] [.document ⟨"pdf", "doc", []⟩] true false
      = [.text "Document attached.", .document ⟨"pdf", "doc", []⟩] ∧
    buildContent [] [.document ⟨"pdf", "doc", []⟩] true true
      = [.document ⟨"pdf", "doc", []⟩] :=
  ⟨by simpa using (c5_document_placeholder [] [.document ⟨"pdf", "doc", []⟩] 0 rfl).1.1,
   by simpa using (c5_document_placeholder [] [.document ⟨"pdf", "doc", []⟩] 0 rfl).2 true⟩

/-! ### Claim C10: documents following a tool result are absorbed into it -/

/-- C10: scanning a Document block while the turn has already collected a
tool-result entry whose index is at or before the document's appends
`{"json": {"document": payload}}` to that last entry's content; the document
is not added to the non-tool-result entries, and neither the has-document nor
the has-text flag changes, so it can never trigger the placeholder. -/
theorem c10_document_absorbed (world : FetchWorld) (allow : Bool) (st : TurnScan)
    (idx : Nat) (nm : Option String) (src : Option SrcDict) (payload : BMedia)
    (lastE : TREntry)
    (hdoc : to_bedrock_document world allow nm src = .ok payload)
    (hlast : st.tool_result_entries.getLast? = some lastE)
    (hidx : lastE.idx ≤ idx) :
    scanStep world allow st idx (.document nm src) = .ok
      { has_text := st.has_text,
        has_document := st.has_document,
        tool_use_ids := st.tool_use_ids,
        tool_result_entries := st.tool_result_entries.dropLast ++
          [{ lastE with content := lastE.content ++
              [.json (.obj [("document", payload.toJVal)])] }],
        other_entries := st.other_entries } := by
  simp only [scanStep, hdoc, except_bind_ok, hlast, if_pos hidx]
  rw [appendDocToLast, hlast]

/-- Witness for C10: a document at index 1 after a tool result at index 0 is
folded into that result's content. -/
theorem c10_document_absorbed_witness :
    scanStep noFetch false
        { tool_result_entries := [⟨0, some "t1", [.text "ok"], "success"⟩] } 1
        (.document none (some { type := some "base64",
                                media_type := some "application/pdf",
                                data := some "QUJD" }))
      = .ok { tool_result_entries := [⟨0, some "t1",
                [.text "ok",
                 .json (.obj [("document", .obj [("format", .str "pdf"),
                    ("name", .str "document PDF"),
                    ("source", .obj [("bytes",
                      .bytes (decode_base64_to_bytes "QUJD"))])])])],
                "success"⟩] } :=
  c10_document_absorbed noFetch false
    { tool_result_entries := [⟨0, some "t1", [.text "ok"], "success"⟩] } 1
    none (some { type := some "base64", media_type := some "application/pdf",
                 data := some "QUJD" })
    ⟨"pdf", "document PDF", decode_base64_to_bytes "QUJD"⟩
    ⟨0, some "t1", [.text "ok"], "success"⟩
    rfl rfl (by decide)

end Proxy
